import Mathlib

/-!
# Verification of `log_analyzer.py`

Shallow embedding of the log-triage repository's `src/log_analyzer.py`:
the Combined Log Format line parser (`LOG_PATTERN` / `parse_log_line`),
the timestamp parser (`parse_log_date`, i.e. `strptime` with format
`%d/%b/%Y:%H:%M:%S %z`), the `LogMetrics` accumulator (`update` / `merge`),
the bucketing policy of `analyze_file`, and the top-20 ranking used by
`print_metrics` (`Counter.most_common(20)`).

Strings are modelled over their character lists; character classes such as
`\d` are modelled at ASCII scope (the scope of Combined Log Format lines).
-/

set_option autoImplicit false

namespace LogTriage

/-- ASCII whitespace recognised by Python's `str.split()` / `str.strip()`
(modelled at ASCII scope). -/
def isPyWS (c : Char) : Bool :=
  c = ' ' || c = '\t' || c = '\n' || c = '\r' || c = '\x0b' || c = '\x0c'

/-- Worker for Python `str.split()`: walks the characters, `cur` holds the
(reversed) current whitespace-free token. -/
def splitAux : List Char → List Char → List (List Char)
  | [], cur => if cur.isEmpty then [] else [cur.reverse]
  | c :: t, cur =>
    if isPyWS c then
      if cur.isEmpty then splitAux t [] else cur.reverse :: splitAux t []
    else splitAux t (c :: cur)

/-- Python `str.split()` with no separator: maximal whitespace-free runs. -/
def pySplit (s : String) : List String :=
  (splitAux s.data []).map fun l => ⟨l⟩

/-- Python `str.strip()`: drop leading and trailing whitespace. -/
def pyStripCl (l : List Char) : List Char :=
  ((l.dropWhile isPyWS).reverse.dropWhile isPyWS).reverse

/-- Python `str.strip()` on strings (used by `analyze_file` on each line). -/
def pyStrip (s : String) : String := ⟨pyStripCl s.data⟩

/-- Numeric value of an ASCII digit character. -/
def dval (c : Char) : Nat := c.toNat - 48

/-- Digit tail of Python's `int()` literal grammar: `(digit | '_' digit)*`,
accumulating the value (underscores must sit between digits). -/
def digitsVal : List Char → Nat → Option Nat
  | [], acc => some acc
  | c :: cs, acc =>
    if c.isDigit then digitsVal cs (acc * 10 + dval c)
    else if c = '_' then
      match cs with
      | d :: cs' => if d.isDigit then digitsVal cs' (acc * 10 + dval d) else none
      | [] => none
    else none

/-- Python's `int()` digit run: `digit (digit | '_' digit)*`. -/
def pyDigits : List Char → Option Nat
  | [] => none
  | c :: cs => if c.isDigit then digitsVal cs (dval c) else none

/-- Python's `int(str)` conversion as used by `LogMetrics.update` on the
`status` field: optional surrounding whitespace, optional sign, digit run
(ASCII scope).  `none` models the `ValueError` raise. -/
def pyInt (s : String) : Option Int :=
  match pyStripCl s.data with
  | '+' :: ds => (pyDigits ds).map fun n => (n : Int)
  | '-' :: ds => (pyDigits ds).map fun n => -(n : Int)
  | ds => (pyDigits ds).map fun n => (n : Int)

/-! ## Counters

`collections.Counter` is modelled as an insertion-ordered association list
(Python dicts preserve insertion order, which `most_common` ties depend on).
-/

/-- The counter type: insertion-ordered association list value ↦ count. -/
abbrev Cnt := List (String × Nat)

/-- Counter lookup (`c[k]`, missing keys count 0; Python dict keys are
unique, so first-match lookup is dict lookup). -/
def cGet : Cnt → String → Nat
  | [], _ => 0
  | p :: t, k => if p.1 = k then p.2 else cGet t k

/-- Dict assignment `c[k] = v`: update in place if present, else append
(insertion order of Python dicts). -/
def cSet (c : Cnt) (k : String) (v : Nat) : Cnt :=
  if c.any fun p => p.1 = k then
    c.map fun p => if p.1 = k then (p.1, v) else p
  else c ++ [(k, v)]

/-- Model of `c[k] += 1` on a `Counter`. -/
def cInc (c : Cnt) (k : String) : Cnt :=
  if c.any fun p => p.1 = k then
    c.map fun p => if p.1 = k then (p.1, p.2 + 1) else p
  else c ++ [(k, 1)]

/-- Model of `Counter.__iadd__` (`self += other`): for each entry of `other` in order,
`self[k] = v + self[k]`; then `_keep_positive` drops non-positive entries. -/
def cAdd (self other : Cnt) : Cnt :=
  (other.foldl (fun s p => cSet s p.1 (p.2 + cGet s p.1)) self).filter
    fun p => 0 < p.2

/-- The key list of a counter. -/
def cKeys (c : Cnt) : List String := c.map Prod.fst

@[simp] theorem cGet_nil (k : String) : cGet [] k = 0 := rfl

@[simp] theorem cKeys_nil : cKeys [] = [] := rfl

@[simp] theorem cKeys_cons (p : String × Nat) (t : Cnt) :
    cKeys (p :: t) = p.1 :: cKeys t := rfl

theorem any_key_iff (c : Cnt) (k : String) :
    (c.any fun p => p.1 = k) = true ↔ k ∈ cKeys c := by
  rw [List.any_eq_true]
  constructor
  · rintro ⟨p, hp, he⟩
    exact List.mem_map.mpr ⟨p, hp, of_decide_eq_true he⟩
  · intro h
    rcases List.mem_map.mp h with ⟨p, hp, he⟩
    exact ⟨p, hp, decide_eq_true he⟩

theorem cGet_absent (c : Cnt) (k : String) (h : k ∉ cKeys c) : cGet c k = 0 := by
  induction c with
  | nil => rfl
  | cons p t ih =>
    have hp : ¬ p.1 = k := fun he => h (by simp [he])
    simp only [cGet, hp, if_false]
    exact ih fun hm => h (by simp [hm])

/-- Lookup after the in-place map that adjusts the value at key `k`. -/
theorem cGet_mapAdj (c : Cnt) (k : String) (f : Nat → Nat) (k' : String) :
    cGet (c.map fun p => if p.1 = k then (p.1, f p.2) else p) k'
      = if k = k' ∧ k ∈ cKeys c then f (cGet c k) else cGet c k' := by
  induction c with
  | nil => simp
  | cons p t ih =>
    obtain ⟨a, b⟩ := p
    by_cases hp : a = k
    · subst hp
      by_cases hk : a = k'
      · subst hk
        simp [cGet]
      · simp [cGet, hk, ih]
    · have hk2 : ¬ k = a := fun h => hp h.symm
      by_cases hak' : a = k'
      · subst hak'
        simp [cGet, hk2, hp]
      · simp [cGet, hp, hak', hk2, ih]

/-- Lookup after appending a fresh key. -/
theorem cGet_append_fresh (c : Cnt) (k : String) (v : Nat) (k' : String)
    (h : k ∉ cKeys c) :
    cGet (c ++ [(k, v)]) k' = if k = k' then v else cGet c k' := by
  induction c with
  | nil => simp [cGet]
  | cons p t ih =>
    have hp : ¬ p.1 = k := fun he => h (by simp [he])
    have ht : k ∉ cKeys t := fun hm => h (by simp [hm])
    by_cases hpk' : p.1 = k'
    · have hk : ¬ k = k' := fun he => hp (he ▸ hpk')
      simp [cGet, hpk', hk]
    · simp [cGet, hpk', ih ht]

theorem cGet_cSet (c : Cnt) (k : String) (v : Nat) (k' : String) :
    cGet (cSet c k v) k' = if k = k' then v else cGet c k' := by
  unfold cSet
  by_cases hmem : c.any fun p => p.1 = k
  · rw [if_pos hmem]
    have hk : k ∈ cKeys c := (any_key_iff c k).mp hmem
    have := cGet_mapAdj c k (fun _ => v) k'
    simp only [hk, and_true] at this
    rw [this]
  · rw [if_neg hmem]
    have hk : k ∉ cKeys c := fun h => hmem ((any_key_iff c k).mpr h)
    exact cGet_append_fresh c k v k' hk

theorem cGet_cInc (c : Cnt) (k k' : String) :
    cGet (cInc c k) k' = cGet c k' + if k = k' then 1 else 0 := by
  unfold cInc
  by_cases hmem : c.any fun p => p.1 = k
  · rw [if_pos hmem]
    have hk : k ∈ cKeys c := (any_key_iff c k).mp hmem
    have := cGet_mapAdj c k (fun n => n + 1) k'
    simp only [hk, and_true] at this
    rw [this]
    by_cases he : k = k' <;> simp [he]
  · rw [if_neg hmem]
    have hk : k ∉ cKeys c := fun h => hmem ((any_key_iff c k).mpr h)
    rw [cGet_append_fresh c k 1 k' hk]
    by_cases he : k = k'
    · subst he
      simp [cGet_absent c k hk]
    · simp [he]

theorem cKeys_mapAdj (c : Cnt) (k : String) (f : Nat → Nat) :
    cKeys (c.map fun p => if p.1 = k then (p.1, f p.2) else p) = cKeys c := by
  induction c with
  | nil => rfl
  | cons p t ih =>
    obtain ⟨a, b⟩ := p
    by_cases hp : a = k <;> simp [hp, ih]

theorem cKeys_cSet (c : Cnt) (k : String) (v : Nat) :
    cKeys (cSet c k v) = if k ∈ cKeys c then cKeys c else cKeys c ++ [k] := by
  unfold cSet
  by_cases hmem : c.any fun p => p.1 = k
  · rw [if_pos hmem, if_pos ((any_key_iff c k).mp hmem)]
    exact cKeys_mapAdj c k (fun _ => v)
  · have : k ∉ cKeys c := fun h => hmem ((any_key_iff c k).mpr h)
    rw [if_neg hmem, if_neg this]
    simp [cKeys]

theorem cKeys_cInc (c : Cnt) (k : String) :
    cKeys (cInc c k) = if k ∈ cKeys c then cKeys c else cKeys c ++ [k] := by
  unfold cInc
  by_cases hmem : c.any fun p => p.1 = k
  · rw [if_pos hmem, if_pos ((any_key_iff c k).mp hmem)]
    exact cKeys_mapAdj c k (fun n => n + 1)
  · have : k ∉ cKeys c := fun h => hmem ((any_key_iff c k).mpr h)
    rw [if_neg hmem, if_neg this]
    simp [cKeys]

theorem nodup_cSet (c : Cnt) (k : String) (v : Nat) (h : (cKeys c).Nodup) :
    (cKeys (cSet c k v)).Nodup := by
  rw [cKeys_cSet]
  by_cases hmem : k ∈ cKeys c
  · rwa [if_pos hmem]
  · rw [if_neg hmem]
    simpa [List.nodup_append] using ⟨h, fun h' => hmem h'⟩

theorem nodup_cInc (c : Cnt) (k : String) (h : (cKeys c).Nodup) :
    (cKeys (cInc c k)).Nodup := by
  rw [cKeys_cInc]
  by_cases hmem : k ∈ cKeys c
  · rwa [if_pos hmem]
  · rw [if_neg hmem]
    simpa [List.nodup_append] using ⟨h, fun h' => hmem h'⟩

theorem nodup_filter_pos (c : Cnt) (h : (cKeys c).Nodup) :
    (cKeys (c.filter fun p => 0 < p.2)).Nodup := by
  unfold cKeys at h ⊢
  exact h.sublist ((List.filter_sublist c).map Prod.fst)

theorem cGet_filter_pos (c : Cnt) (k : String) (h : (cKeys c).Nodup) :
    cGet (c.filter fun p => 0 < p.2) k = cGet c k := by
  induction c with
  | nil => rfl
  | cons p t ih =>
    obtain ⟨a, b⟩ := p
    simp only [cKeys_cons, List.nodup_cons] at h
    by_cases hk : a = k
    · subst hk
      by_cases hb : 0 < b
      · simp [List.filter_cons, hb, cGet]
      · have hb0 : b = 0 := by omega
        have habs : a ∉ cKeys (t.filter fun p => 0 < p.2) := fun hmem => by
          have : a ∈ cKeys t := by
            rcases List.mem_map.mp hmem with ⟨q, hq, he⟩
            exact List.mem_map.mpr ⟨q, (List.mem_filter.mp hq).1, he⟩
          exact h.1 this
        simp [List.filter_cons, hb0, cGet, cGet_absent _ _ habs]
    · by_cases hb : 0 < b <;>
        simp [List.filter_cons, hb, cGet, hk, ih h.2]

theorem foldl_cSet_get (b a : Cnt) (k : String) (h : (cKeys b).Nodup) :
    cGet (b.foldl (fun s p => cSet s p.1 (p.2 + cGet s p.1)) a) k
      = cGet a k + cGet b k := by
  induction b generalizing a with
  | nil => simp
  | cons p b' ih =>
    obtain ⟨k0, v0⟩ := p
    simp only [cKeys_cons, List.nodup_cons] at h
    rw [List.foldl_cons, ih _ h.2, cGet_cSet]
    by_cases hk : k0 = k
    · subst hk
      have : cGet b' k0 = 0 := cGet_absent _ _ h.1
      simp [cGet, this]
      omega
    · simp [cGet, hk]

theorem cGet_cAdd (a b : Cnt) (k : String)
    (ha : (cKeys a).Nodup) (hb : (cKeys b).Nodup) :
    cGet (cAdd a b) k = cGet a k + cGet b k := by
  unfold cAdd
  have hnodup : (cKeys (b.foldl (fun s p => cSet s p.1 (p.2 + cGet s p.1)) a)).Nodup := by
    clear hb
    induction b generalizing a with
    | nil => exact ha
    | cons p b' ih => exact ih _ (nodup_cSet _ _ _ ha)
  rw [cGet_filter_pos _ _ hnodup, foldl_cSet_get _ _ _ hb]

theorem nodup_cAdd (a b : Cnt) (ha : (cKeys a).Nodup) :
    (cKeys (cAdd a b)).Nodup := by
  unfold cAdd
  apply nodup_filter_pos
  induction b generalizing a with
  | nil => exact ha
  | cons p b' ih => exact ih _ (nodup_cSet _ _ _ ha)

/-! ## The metrics accumulator (`LogMetrics`)

`error_counts` is a dict with the two fixed keys `"4xx"` and `"5xx"`; it is
modelled as the two fields `err4xx` and `err5xx`. -/

structure LogMetrics where
  ip_counter : Cnt
  ua_counter : Cnt
  uri_counter : Cnt
  err4xx : Nat
  err5xx : Nat
  admin_ajax_count : Nat
  total_requests : Nat
  deriving DecidableEq

/-- Model of `LogMetrics.__init__`. -/
def emptyMetrics : LogMetrics := ⟨[], [], [], 0, 0, 0, 0⟩

/-- The parsed-line record (`match.groupdict()` of `LOG_PATTERN`): all seven
captured fields, as strings. -/
structure RecD where
  ip : String
  date : String
  request : String
  status : String
  size : String
  referrer : String
  user_agent : String
  deriving DecidableEq

/-- Model of the URI extraction in `LogMetrics.update`
(lines 29-34): the second whitespace-separated token when there is one,
otherwise the whole raw request line. -/
def uriOf (request : String) : String :=
  match pySplit request with
  | _ :: u :: _ => u
  | _ => request

/-- Is `needle` a contiguous substring (Python `in` on strings)? -/
def hasSubCl (needle : List Char) : List Char → Bool
  | [] => needle.isEmpty
  | c :: t => needle.isPrefixOf (c :: t) || hasSubCl needle t

/-- Python `needle in hay` for strings. -/
def strIn (needle hay : String) : Bool := hasSubCl needle.data hay.data

/-- The literal `'admin-ajax.php'` tested in `update`. -/
def ajaxLit : String := "admin-ajax.php"

/-- Model of `LogMetrics.update`, statement by statement.  `int(data['status'])` can
raise `ValueError`; the `Except.error` carries the state at the raise point
(all earlier increments applied). -/
def update (m : LogMetrics) (r : RecD) : Except LogMetrics LogMetrics :=
  let m1 := { m with total_requests := m.total_requests + 1 }
  let m2 := { m1 with ip_counter := cInc m1.ip_counter r.ip }
  let m3 := { m2 with ua_counter := cInc m2.ua_counter r.user_agent }
  let uri := uriOf r.request
  let m4 := { m3 with uri_counter := cInc m3.uri_counter uri }
  let m5 :=
    if strIn ajaxLit uri then
      { m4 with admin_ajax_count := m4.admin_ajax_count + 1 }
    else m4
  match pyInt r.status with
  | none => Except.error m5
  | some status =>
    if 400 ≤ status ∧ status < 500 then
      Except.ok { m5 with err4xx := m5.err4xx + 1 }
    else if 500 ≤ status ∧ status < 600 then
      Except.ok { m5 with err5xx := m5.err5xx + 1 }
    else Except.ok m5

/-- Model of `update` as a total function.  Within `analyze_file`, records come from
`parse_log_line`, whose grammar forces `status` to be a nonempty digit run,
so `update` never raises there (`update_ok_of_digits` below); the error
branch of this function is unreachable from `analyze_file`. -/
def applyUpdate (m : LogMetrics) (r : RecD) : LogMetrics :=
  match update m r with
  | Except.ok m' => m'
  | Except.error m' => m'

/-- Does the record's status parse and fall in [400,500)? -/
def is4xx (r : RecD) : Bool :=
  match pyInt r.status with
  | some s => decide (400 ≤ s ∧ s < 500)
  | none => false

/-- Does the record's status parse and fall in [500,600)? -/
def is5xx (r : RecD) : Bool :=
  match pyInt r.status with
  | some s => decide (500 ≤ s ∧ s < 600)
  | none => false

/-- Closed form of one `update` application (either branch). -/
theorem applyUpdate_eq (m : LogMetrics) (r : RecD) :
    applyUpdate m r = { m with
      total_requests := m.total_requests + 1,
      ip_counter := cInc m.ip_counter r.ip,
      ua_counter := cInc m.ua_counter r.user_agent,
      uri_counter := cInc m.uri_counter (uriOf r.request),
      admin_ajax_count := m.admin_ajax_count
        + (if strIn ajaxLit (uriOf r.request) then 1 else 0),
      err4xx := m.err4xx + (if is4xx r then 1 else 0),
      err5xx := m.err5xx + (if is5xx r then 1 else 0) } := by
  unfold applyUpdate update
  cases hpi : pyInt r.status with
  | none =>
    simp only [is4xx, is5xx, hpi]
    by_cases hadmin : strIn ajaxLit (uriOf r.request) = true <;> simp [hadmin]
  | some s =>
    simp only [is4xx, is5xx, hpi]
    by_cases hadmin : strIn ajaxLit (uriOf r.request) = true <;>
      by_cases h4 : 400 ≤ s ∧ s < 500 <;>
        by_cases h5 : 500 ≤ s ∧ s < 600 <;>
          simp [hadmin, h4, h5] <;> omega

/-- Model of `LogMetrics.merge` as a function of the two aggregate values: the new
value of the receiver (lines 46-53). -/
def mergeM (a b : LogMetrics) : LogMetrics :=
  { total_requests := a.total_requests + b.total_requests
    ip_counter := cAdd a.ip_counter b.ip_counter
    ua_counter := cAdd a.ua_counter b.ua_counter
    uri_counter := cAdd a.uri_counter b.uri_counter
    err4xx := a.err4xx + b.err4xx
    err5xx := a.err5xx + b.err5xx
    admin_ajax_count := a.admin_ajax_count + b.admin_ajax_count }

/-! ## The line parser (`LOG_PATTERN` / `parse_log_line`)

`LOG_PATTERN` is
`(?P<ip>[\d\.]+) - - \[(?P<date>[^\]]+)\] "(?P<request>[^"]+)" (?P<status>\d+) (?P<size>\d+|-) "(?P<referrer>[^"]*)" "(?P<user_agent>[^"]*)"`
matched with `re.match` (anchored at the start, trailing text ignored).
On this pattern, backtracking never changes the outcome: every character
class excludes the first character of the literal that follows it (`[\d.]`
excludes the space, `[^\]]` excludes `]`, `[^"]` excludes `"`, `\d` excludes
the space), so each greedy class match is exactly the maximal run, and in
the `\d+|-` alternation a digit start excludes a `-` start.  Hence the
regex is modelled by the deterministic maximal-run parser below.
`\d` is modelled as ASCII digits. -/

/-- The class `[\d\.]` of the `ip` group. -/
def isIpChar (c : Char) : Bool := c.isDigit || c = '.'

/-- Match a literal character sequence, returning the rest. -/
def litSeq : List Char → List Char → Option (List Char)
  | [], s => some s
  | _ :: _, [] => none
  | c :: cs, d :: ds => if c = d then litSeq cs ds else none

/-- Greedy nonempty character-class match (`[class]+`). -/
def field1 (p : Char → Bool) (l : List Char) : Option (List Char × List Char) :=
  if l.takeWhile p = [] then none else some (l.takeWhile p, l.dropWhile p)

/-- Greedy possibly-empty character-class match (`[class]*`). -/
def field0 (p : Char → Bool) (l : List Char) : List Char × List Char :=
  (l.takeWhile p, l.dropWhile p)

/-- The literal ` - - [` after the ip. -/
def lit1 : List Char := [' ', '-', ' ', '-', ' ', '[']
/-- The literal `] "` after the date. -/
def lit2 : List Char := [']', ' ', '"']
/-- The literal `" ` after the request. -/
def lit3 : List Char := ['"', ' ']
/-- The literal ` "` after the size. -/
def lit4 : List Char := [' ', '"']
/-- The literal `" "` after the referrer. -/
def lit5 : List Char := ['"', ' ', '"']
/-- The closing `"` after the user agent. -/
def lit6 : List Char := ['"']

/-- The `\d+|-` alternation of the `size` group (a digit start excludes the
`-` alternative, so trying digits first is exact). -/
def sizeField (l : List Char) : Option (List Char × List Char) :=
  match field1 Char.isDigit l with
  | some x => some x
  | none =>
    match l with
    | c :: r => if c = '-' then some ([c], r) else none
    | [] => none

/-- Model of `LOG_PATTERN.match` on a character list: the seven captured groups and
the unconsumed suffix. -/
def parseCLFc (l : List Char) : Option (RecD × List Char) :=
  (field1 isIpChar l).bind fun ipr =>
  (litSeq lit1 ipr.2).bind fun r2 =>
  (field1 (fun c => c != ']') r2).bind fun dater =>
  (litSeq lit2 dater.2).bind fun r4 =>
  (field1 (fun c => c != '"') r4).bind fun reqr =>
  (litSeq lit3 reqr.2).bind fun r6 =>
  (field1 Char.isDigit r6).bind fun str =>
  (litSeq [' '] str.2).bind fun r8 =>
  (sizeField r8).bind fun szr =>
  (litSeq lit4 szr.2).bind fun r10 =>
  (litSeq lit5 (field0 (fun c => c != '"') r10).2).bind fun r12 =>
  (litSeq lit6 (field0 (fun c => c != '"') r12).2).map fun r14 =>
  (⟨⟨ipr.1⟩, ⟨dater.1⟩, ⟨reqr.1⟩, ⟨str.1⟩, ⟨szr.1⟩,
    ⟨(field0 (fun c => c != '"') r10).1⟩, ⟨(field0 (fun c => c != '"') r12).1⟩⟩,
   r14)

/-- Model of `parse_log_line` (lines 55-60): the record of the seven groups, or
`None` when the pattern does not match. -/
def parse_log_line (s : String) : Option RecD :=
  (parseCLFc s.data).map fun pr => pr.1

/-- Re-serialization of the seven captured fields through the grammar
template; for a successful match this is the consumed prefix. -/
def serializeCLF (r : RecD) : List Char :=
  r.ip.data ++ lit1 ++ r.date.data ++ lit2 ++ r.request.data ++ lit3 ++
  r.status.data ++ [' '] ++ r.size.data ++ lit4 ++ r.referrer.data ++ lit5 ++
  r.user_agent.data ++ lit6

theorem litSeq_eq (pat s r : List Char) (h : litSeq pat s = some r) :
    s = pat ++ r := by
  induction pat generalizing s with
  | nil =>
    simp only [litSeq, Option.some.injEq] at h
    simp [h]
  | cons c cs ih =>
    cases s with
    | nil => simp [litSeq] at h
    | cons d ds =>
      simp only [litSeq] at h
      by_cases hc : c = d
      · rw [if_pos hc] at h
        subst hc
        simp [ih ds h]
      · rw [if_neg hc] at h
        exact absurd h (by simp)

theorem field1_eq (p : Char → Bool) (l : List Char) (x : List Char × List Char)
    (h : field1 p l = some x) : l = x.1 ++ x.2 := by
  unfold field1 at h
  by_cases ht : l.takeWhile p = []
  · rw [if_pos ht] at h
    exact absurd h (by simp)
  · rw [if_neg ht] at h
    have := Option.some.inj h
    rw [← this]
    exact (List.takeWhile_append_dropWhile p l).symm

theorem field0_eq (p : Char → Bool) (l : List Char) :
    l = (field0 p l).1 ++ (field0 p l).2 :=
  (List.takeWhile_append_dropWhile p l).symm

theorem sizeField_eq (l : List Char) (x : List Char × List Char)
    (h : sizeField l = some x) : l = x.1 ++ x.2 := by
  unfold sizeField at h
  cases hf : field1 Char.isDigit l with
  | some y =>
    rw [hf] at h
    have := Option.some.inj h
    rw [← this]
    exact field1_eq _ _ _ hf
  | none =>
    rw [hf] at h
    cases l with
    | nil => exact absurd h (by simp at h)
    | cons c r =>
      have h' : (if c = '-' then some ([c], r) else none) = some x := h
      by_cases hc : c = '-'
      · rw [if_pos hc] at h'
        have := Option.some.inj h'
        rw [← this]
        rfl
      · rw [if_neg hc] at h'
        exact absurd h' (by simp)

theorem data_mk (l : List Char) : (⟨l⟩ : String).data = l := rfl

theorem parseCLFc_roundtrip (l : List Char) (r : RecD) (rest : List Char)
    (h : parseCLFc l = some (r, rest)) : serializeCLF r ++ rest = l := by
  unfold parseCLFc at h
  rw [Option.bind_eq_some] at h
  obtain ⟨ipr, hip, h⟩ := h
  rw [Option.bind_eq_some] at h
  obtain ⟨r2, hl1, h⟩ := h
  rw [Option.bind_eq_some] at h
  obtain ⟨dater, hdate, h⟩ := h
  rw [Option.bind_eq_some] at h
  obtain ⟨r4, hl2, h⟩ := h
  rw [Option.bind_eq_some] at h
  obtain ⟨reqr, hreq, h⟩ := h
  rw [Option.bind_eq_some] at h
  obtain ⟨r6, hl3, h⟩ := h
  rw [Option.bind_eq_some] at h
  obtain ⟨str, hstat, h⟩ := h
  rw [Option.bind_eq_some] at h
  obtain ⟨r8, hsp, h⟩ := h
  rw [Option.bind_eq_some] at h
  obtain ⟨szr, hsize, h⟩ := h
  rw [Option.bind_eq_some] at h
  obtain ⟨r10, hl4, h⟩ := h
  rw [Option.bind_eq_some] at h
  obtain ⟨r12, hl5, h⟩ := h
  rw [Option.map_eq_some'] at h
  obtain ⟨r14, hl6, h⟩ := h
  injection h with hr hrest
  subst hrest
  subst hr
  have e11 := field0_eq (fun c => c != '"') r10
  have e13 := field0_eq (fun c => c != '"') r12
  generalize hg2 : field0 (fun c => c != '"') r12 = uar at hl6 e13 ⊢
  generalize hg1 : field0 (fun c => c != '"') r10 = refr at hl5 e11 ⊢
  have e1 := field1_eq _ _ _ hip
  have e2 := litSeq_eq _ _ _ hl1
  have e3 := field1_eq _ _ _ hdate
  have e4 := litSeq_eq _ _ _ hl2
  have e5 := field1_eq _ _ _ hreq
  have e6 := litSeq_eq _ _ _ hl3
  have e7 := field1_eq _ _ _ hstat
  have e8 := litSeq_eq _ _ _ hsp
  have e9 := sizeField_eq _ _ hsize
  have e10 := litSeq_eq _ _ _ hl4
  have e12 := litSeq_eq _ _ _ hl5
  have e14 := litSeq_eq _ _ _ hl6
  rw [e1, e2, e3, e4, e5, e6, e7, e8, e9, e10, e11, e12, e13, e14]
  simp [serializeCLF, data_mk, List.append_assoc]

theorem takeWhile_all_append (p : Char → Bool) (a b : List Char)
    (h : ∀ c ∈ a, p c = true) : (a ++ b).takeWhile p = a ++ b.takeWhile p := by
  induction a with
  | nil => simp
  | cons c t ih =>
    have hc : p c = true := h c (by simp)
    simp only [List.cons_append, List.takeWhile_cons_of_pos hc]
    rw [ih fun x hx => h x (by simp [hx])]

theorem dropWhile_all_append (p : Char → Bool) (a b : List Char)
    (h : ∀ c ∈ a, p c = true) : (a ++ b).dropWhile p = b.dropWhile p := by
  induction a with
  | nil => simp
  | cons c t ih =>
    have hc : p c = true := h c (by simp)
    simp only [List.cons_append, List.dropWhile_cons_of_pos hc]
    exact ih fun x hx => h x (by simp [hx])

theorem field1_append (p : Char → Bool) (a : List Char) (x : Char)
    (b : List Char) (ha : ∀ c ∈ a, p c = true) (hne : a ≠ []) (hx : p x = false) :
    field1 p (a ++ x :: b) = some (a, x :: b) := by
  unfold field1
  rw [takeWhile_all_append p a (x :: b) ha, dropWhile_all_append p a (x :: b) ha,
    List.takeWhile_cons_of_neg (by simp [hx]), List.dropWhile_cons_of_neg (by simp [hx])]
  simp [hne]

theorem field0_append (p : Char → Bool) (a : List Char) (x : Char)
    (b : List Char) (ha : ∀ c ∈ a, p c = true) (hx : p x = false) :
    field0 p (a ++ x :: b) = (a, x :: b) := by
  unfold field0
  rw [takeWhile_all_append p a (x :: b) ha, dropWhile_all_append p a (x :: b) ha,
    List.takeWhile_cons_of_neg (by simp [hx]), List.dropWhile_cons_of_neg (by simp [hx])]
  simp

theorem litSeq_self (pat r : List Char) : litSeq pat (pat ++ r) = some r := by
  induction pat with
  | nil => rfl
  | cons c cs ih => simp [litSeq, ih]

theorem field1_ip_step (a Y : List Char) (hne : a ≠ [])
    (ha : ∀ c ∈ a, isIpChar c = true) :
    field1 isIpChar (a ++ (lit1 ++ Y)) = some (a, lit1 ++ Y) := by
  rw [show lit1 ++ Y = ' ' :: ('-' :: ' ' :: '-' :: ' ' :: '[' :: Y) from rfl]
  exact field1_append _ _ _ _ ha hne (by decide)

theorem field1_date_step (a Y : List Char) (hne : a ≠ [])
    (ha : ∀ c ∈ a, (c != ']') = true) :
    field1 (fun c => c != ']') (a ++ (lit2 ++ Y)) = some (a, lit2 ++ Y) := by
  rw [show lit2 ++ Y = ']' :: (' ' :: '"' :: Y) from rfl]
  exact field1_append _ _ _ _ ha hne (by decide)

theorem field1_req_step (a Y : List Char) (hne : a ≠ [])
    (ha : ∀ c ∈ a, (c != '"') = true) :
    field1 (fun c => c != '"') (a ++ (lit3 ++ Y)) = some (a, lit3 ++ Y) := by
  rw [show lit3 ++ Y = '"' :: (' ' :: Y) from rfl]
  exact field1_append _ _ _ _ ha hne (by decide)

theorem field1_status_step (a Y : List Char) (hne : a ≠ [])
    (ha : ∀ c ∈ a, c.isDigit = true) :
    field1 Char.isDigit (a ++ ([' '] ++ Y)) = some (a, [' '] ++ Y) := by
  rw [show [' '] ++ Y = ' ' :: Y from rfl]
  exact field1_append _ _ _ _ ha hne (by decide)

theorem sizeField_step (a Y : List Char)
    (h : (a ≠ [] ∧ ∀ c ∈ a, c.isDigit = true) ∨ a = ['-']) :
    sizeField (a ++ (lit4 ++ Y)) = some (a, lit4 ++ Y) := by
  rcases h with ⟨hne, hd⟩ | he
  · unfold sizeField
    rw [show lit4 ++ Y = ' ' :: ('"' :: Y) from rfl,
      field1_append _ _ _ _ hd hne (by decide)]
  · subst he
    unfold sizeField
    have hnone : field1 Char.isDigit (['-'] ++ (lit4 ++ Y)) = none := by
      unfold field1
      rw [show (['-'] : List Char) ++ (lit4 ++ Y) = '-' :: (lit4 ++ Y) from rfl,
        List.takeWhile_cons_of_neg (by decide)]
      simp
    rw [hnone]
    rw [show (['-'] : List Char) ++ (lit4 ++ Y) = '-' :: (lit4 ++ Y) from rfl]
    simp

theorem field0_ref_step (a Y : List Char) (ha : ∀ c ∈ a, (c != '"') = true) :
    field0 (fun c => c != '"') (a ++ (lit5 ++ Y)) = (a, lit5 ++ Y) := by
  rw [show lit5 ++ Y = '"' :: (' ' :: '"' :: Y) from rfl]
  exact field0_append _ _ _ _ ha (by decide)

theorem field0_ua_step (a : List Char) (ha : ∀ c ∈ a, (c != '"') = true) :
    field0 (fun c => c != '"') (a ++ lit6) = (a, lit6) := by
  rw [show (lit6 : List Char) = '"' :: [] from rfl]
  exact field0_append _ _ _ _ ha (by decide)

theorem litSeq_refl (pat : List Char) : litSeq pat pat = some [] := by
  have := litSeq_self pat []
  rwa [List.append_nil] at this

/-- Completeness of the deterministic parser on grammar-shaped lines: a line
built from well-formed fields by the grammar template parses back to exactly
those fields, consuming the whole line. -/
theorem parseCLFc_serialize (r : RecD)
    (hip : r.ip.data ≠ [] ∧ ∀ c ∈ r.ip.data, isIpChar c = true)
    (hdate : r.date.data ≠ [] ∧ ∀ c ∈ r.date.data, (c != ']') = true)
    (hreq : r.request.data ≠ [] ∧ ∀ c ∈ r.request.data, (c != '"') = true)
    (hst : r.status.data ≠ [] ∧ ∀ c ∈ r.status.data, c.isDigit = true)
    (hsz : (r.size.data ≠ [] ∧ ∀ c ∈ r.size.data, c.isDigit = true)
      ∨ r.size.data = ['-'])
    (href : ∀ c ∈ r.referrer.data, (c != '"') = true)
    (hua : ∀ c ∈ r.user_agent.data, (c != '"') = true) :
    parseCLFc (serializeCLF r) = some (r, []) := by
  obtain ⟨⟨ipl⟩, ⟨datel⟩, ⟨reql⟩, ⟨stl⟩, ⟨szl⟩, ⟨refl0⟩, ⟨ual⟩⟩ := r
  simp only [data_mk] at hip hdate hreq hst hsz href hua
  unfold serializeCLF parseCLFc
  simp only [data_mk, List.append_assoc]
  rw [field1_ip_step _ _ hip.1 hip.2]
  simp only [Option.some_bind]
  rw [litSeq_self]
  simp only [Option.some_bind]
  rw [field1_date_step _ _ hdate.1 hdate.2]
  simp only [Option.some_bind]
  rw [litSeq_self]
  simp only [Option.some_bind]
  rw [field1_req_step _ _ hreq.1 hreq.2]
  simp only [Option.some_bind]
  rw [litSeq_self]
  simp only [Option.some_bind]
  rw [field1_status_step _ _ hst.1 hst.2]
  simp only [Option.some_bind]
  rw [litSeq_self]
  simp only [Option.some_bind]
  rw [sizeField_step _ _ hsz]
  simp only [Option.some_bind]
  rw [litSeq_self]
  simp only [Option.some_bind]
  rw [field0_ref_step _ _ href]
  simp only [Option.some_bind]
  rw [litSeq_self]
  simp only [Option.some_bind]
  rw [field0_ua_step _ hua]
  simp only [Option.some_bind]
  rw [litSeq_refl]
  simp [Option.map_some']

/-- The grammar rejects an empty `request` group: after `] "` an immediate
closing quote makes `[^"]+` fail, and no backtracking can recover. -/
theorem parseCLFc_empty_request (a d rest : List Char)
    (hip : a ≠ [] ∧ ∀ c ∈ a, isIpChar c = true)
    (hdate : d ≠ [] ∧ ∀ c ∈ d, (c != ']') = true) :
    parseCLFc (a ++ (lit1 ++ (d ++ (lit2 ++ '"' :: rest)))) = none := by
  unfold parseCLFc
  rw [field1_ip_step _ _ hip.1 hip.2]
  simp only [Option.some_bind]
  rw [litSeq_self]
  simp only [Option.some_bind]
  rw [field1_date_step _ _ hdate.1 hdate.2]
  simp only [Option.some_bind]
  rw [litSeq_self]
  simp only [Option.some_bind]
  have hnone : field1 (fun c => c != '"') ('"' :: rest) = none := by
    unfold field1
    rw [List.takeWhile_cons_of_neg (by decide)]
    simp
  rw [hnone]
  simp

/-- The empty line does not match (the `ip` group needs a character). -/
theorem parse_log_line_empty : parse_log_line "" = none := rfl

/-! ## The timestamp parser (`parse_log_date`)

`parse_log_date` is `datetime.strptime(s, "%d/%b/%Y:%H:%M:%S %z")` with
`ValueError` mapped to `None`.  CPython's `_strptime` compiles the format to
a regex (`%d` ↦ `3[01]|[12]\d|0[1-9]|[1-9]| [1-9]`, `%H` ↦ `2[0-3]|[0-1]\d|\d`,
`%M`/`%S` ↦ `[0-5]\d|\d`, `%Y` ↦ `\d\d\d\d`, `%b` ↦ the case-insensitive month
abbreviations, `%z` ↦ `[+-]\d\d:?[0-5]\d(:?[0-5]\d(\.\d{1,6})?)?|Z`), requires
the whole string to be consumed, and then builds
`datetime(year, month, day, hour, minute, second, tzinfo)`, whose own
validation (day within month, year ≥ 1, |offset| < 24h) raises `ValueError`.
In every alternation here the two-character alternative continues with a
digit while the one-character alternative must be followed by the next
literal (`/`, `:` or the space), which is not a digit, so committing to the
longer match is exact and the regex is deterministic.  Digits are modelled
as ASCII digits. -/

structure PyDT where
  year : Nat
  month : Nat
  day : Nat
  hour : Nat
  minute : Nat
  second : Nat
  /-- UTC offset in microseconds (`%z`, sign applied). -/
  offMicro : Int
  deriving DecidableEq

/-- Group `%b`: case-insensitive three-letter month abbreviation. -/
def monthOf (c0 c1 c2 : Char) : Option Nat :=
  match c0.toLower, c1.toLower, c2.toLower with
  | 'j', 'a', 'n' => some 1
  | 'f', 'e', 'b' => some 2
  | 'm', 'a', 'r' => some 3
  | 'a', 'p', 'r' => some 4
  | 'm', 'a', 'y' => some 5
  | 'j', 'u', 'n' => some 6
  | 'j', 'u', 'l' => some 7
  | 'a', 'u', 'g' => some 8
  | 's', 'e', 'p' => some 9
  | 'o', 'c', 't' => some 10
  | 'n', 'o', 'v' => some 11
  | 'd', 'e', 'c' => some 12
  | _, _, _ => none

/-- Two-character alternatives of `%d`: `3[01]|[12]\d|0[1-9]| [1-9]`. -/
def day2 (c0 c1 : Char) : Option Nat :=
  if c0 = '3' ∧ (c1 = '0' ∨ c1 = '1') then some (30 + dval c1)
  else if (c0 = '1' ∨ c0 = '2') ∧ c1.isDigit then some (dval c0 * 10 + dval c1)
  else if c0 = '0' ∧ c1.isDigit ∧ c1 ≠ '0' then some (dval c1)
  else if c0 = ' ' ∧ c1.isDigit ∧ c1 ≠ '0' then some (dval c1)
  else none

/-- One-character alternative of `%d`: `[1-9]`. -/
def day1 (c0 : Char) : Option Nat :=
  if c0.isDigit ∧ c0 ≠ '0' then some (dval c0) else none

/-- Two-character alternatives of `%H`: `2[0-3]|[0-1]\d`. -/
def hour2 (c0 c1 : Char) : Option Nat :=
  if c0 = '2' ∧ (c1 = '0' ∨ c1 = '1' ∨ c1 = '2' ∨ c1 = '3') then
    some (20 + dval c1)
  else if (c0 = '0' ∨ c0 = '1') ∧ c1.isDigit then some (dval c0 * 10 + dval c1)
  else none

/-- Two-character alternative of `%M`/`%S` (and `%z` minutes): `[0-5]\d`. -/
def sexa2 (c0 c1 : Char) : Option Nat :=
  if c0.isDigit ∧ dval c0 ≤ 5 ∧ c1.isDigit then some (dval c0 * 10 + dval c1)
  else none

/-- One-character alternative `\d`. -/
def num1 (c0 : Char) : Option Nat :=
  if c0.isDigit then some (dval c0) else none

/-- Group `%d`, committing to the two-character alternative when it matches (its
second character is a digit, so the one-character alternative could never
continue past the following literal). -/
def parseDayTok : List Char → Option (Nat × List Char)
  | c0 :: c1 :: rest =>
    match day2 c0 c1 with
    | some d => some (d, rest)
    | none => (day1 c0).map fun d => (d, c1 :: rest)
  | [c0] => (day1 c0).map fun d => (d, [])
  | [] => none

/-- Group `%H`, same commitment argument. -/
def parseHourTok : List Char → Option (Nat × List Char)
  | c0 :: c1 :: rest =>
    match hour2 c0 c1 with
    | some h => some (h, rest)
    | none => (num1 c0).map fun h => (h, c1 :: rest)
  | [c0] => (num1 c0).map fun h => (h, [])
  | [] => none

/-- Groups `%M` / `%S`, same commitment argument. -/
def parseSexTok : List Char → Option (Nat × List Char)
  | c0 :: c1 :: rest =>
    match sexa2 c0 c1 with
    | some v => some (v, rest)
    | none => (num1 c0).map fun v => (v, c1 :: rest)
  | [c0] => (num1 c0).map fun v => (v, [])
  | [] => none

/-- Group `%Y`: exactly four digits. -/
def parseYear4 : List Char → Option (Nat × List Char)
  | a :: b :: c :: d :: rest =>
    if a.isDigit ∧ b.isDigit ∧ c.isDigit ∧ d.isDigit then
      some (dval a * 1000 + dval b * 100 + dval c * 10 + dval d, rest)
    else none
  | _ => none

/-- Fractional part of a `%z` offset: `(\.\d{1,6})?` to microseconds
(right-padded with zeros), must end the string. -/
def parseFrac : List Char → Option Nat
  | [] => some 0
  | '.' :: ds =>
    if ds ≠ [] ∧ ds.length ≤ 6 ∧ ∀ c ∈ ds, c.isDigit = true then
      some ((ds.foldl (fun a c => a * 10 + dval c) 0) * 10 ^ (6 - ds.length))
    else none
  | _ => none

/-- Optional seconds part of `%z`: `(:?[0-5]\d(\.\d{1,6})?)?`, must end the
string; returns (seconds, microseconds). -/
def parseZSec (l : List Char) : Option (Nat × Nat) :=
  match l with
  | [] => some (0, 0)
  | _ =>
    let l2 := match l with
      | ':' :: t => t
      | t => t
    match l2 with
    | s1 :: s2 :: rest =>
      match sexa2 s1 s2 with
      | some ss => (parseFrac rest).map fun mic => (ss, mic)
      | none => none
    | _ => none

/-- Group `%z`: `[+-]\d\d:?[0-5]\d(:?[0-5]\d(\.\d{1,6})?)?|Z`, consuming the whole
remaining string; the result is the offset in microseconds. -/
def parseZ : List Char → Option Int
  | ['Z'] => some 0
  | sign :: rest =>
    if sign = '+' ∨ sign = '-' then
      match rest with
      | h1 :: h2 :: rest2 =>
        if h1.isDigit ∧ h2.isDigit then
          let hh := dval h1 * 10 + dval h2
          let rest3 := match rest2 with
            | ':' :: t => t
            | t => t
          match rest3 with
          | m1 :: m2 :: rest4 =>
            match sexa2 m1 m2 with
            | some mm =>
              (parseZSec rest4).map fun sm =>
                let total : Int :=
                  ((hh * 3600 + mm * 60 + sm.1) * 1000000 + sm.2 : Nat)
                if sign = '-' then -total else total
            | none => none
          | _ => none
        else none
      | _ => none
    else none
  | [] => none

/-- Gregorian leap year. -/
def isLeap (y : Nat) : Bool :=
  y % 4 == 0 && (y % 100 != 0 || y % 400 == 0)

/-- Days in a month (as validated by the `datetime` constructor). -/
def daysInMonth (y m : Nat) : Nat :=
  if m = 2 then (if isLeap y then 29 else 28)
  else if m = 4 ∨ m = 6 ∨ m = 9 ∨ m = 11 then 30
  else 31

/-- Civil-calendar day number (days since 0000-03-01, standard era
computation); consistent differences and ordering for all dates in range. -/
def daysFromCivil (y m d : Nat) : Nat :=
  let yy := if m ≤ 2 then y - 1 else y
  let era := yy / 400
  let yoe := yy % 400
  let mp := (m + 9) % 12
  let doy := (153 * mp + 2) / 5 + (d - 1)
  let doe := yoe * 365 + yoe / 4 - yoe / 100 + doy
  era * 146097 + doe

/-- The absolute instant of an aware datetime, in microseconds: the naive
clock reading minus the UTC offset.  Aware-datetime comparison and
subtraction in Python compare exactly these instants. -/
def toInstant (t : PyDT) : Int :=
  ((daysFromCivil t.year t.month t.day : Int) * 86400
    + t.hour * 3600 + t.minute * 60 + t.second) * 1000000 - t.offMicro

/-- Zero-padded two-digit decimal (`%m`, `%d` of `strftime`). -/
def pad2 (n : Nat) : List Char := [Nat.digitChar (n / 10 % 10), Nat.digitChar (n % 10)]

/-- Four-digit decimal (`%Y` of `strftime`; parsed years are 1..9999). -/
def pad4 (n : Nat) : List Char :=
  [Nat.digitChar (n / 1000 % 10), Nat.digitChar (n / 100 % 10),
   Nat.digitChar (n / 10 % 10), Nat.digitChar (n % 10)]

/-- Model of `ts.strftime("%Y-%m-%d")`: the day key of the bucket map, in the
timestamp's own offset (no normalization). -/
def dateKey (t : PyDT) : String :=
  ⟨pad4 t.year ++ '-' :: pad2 t.month ++ '-' :: pad2 t.day⟩

/-- Model of `parse_log_date` on characters: the strptime regex over the fixed
format, then the `datetime`/`timezone` constructor validation. -/
def parseLogDateCl (l : List Char) : Option PyDT :=
  (parseDayTok l).bind fun dayr =>
  match dayr.2 with
  | '/' :: r1 =>
    match r1 with
    | c0 :: c1 :: c2 :: r2 =>
      (monthOf c0 c1 c2).bind fun mo =>
      match r2 with
      | '/' :: r3 =>
        (parseYear4 r3).bind fun yearr =>
        match yearr.2 with
        | ':' :: r4 =>
          (parseHourTok r4).bind fun hourr =>
          match hourr.2 with
          | ':' :: r5 =>
            (parseSexTok r5).bind fun minr =>
            match minr.2 with
            | ':' :: r6 =>
              (parseSexTok r6).bind fun secr =>
              match secr.2 with
              | ' ' :: r7 =>
                (parseZ r7).bind fun off =>
                if 1 ≤ yearr.1 ∧ 1 ≤ dayr.1 ∧ dayr.1 ≤ daysInMonth yearr.1 mo
                    ∧ off.natAbs < 86400000000 then
                  some ⟨yearr.1, mo, dayr.1, hourr.1, minr.1, secr.1, off⟩
                else none
              | _ => none
            | _ => none
          | _ => none
        | _ => none
      | _ => none
    | _ => none
  | _ => none

/-- Model of `parse_log_date` (lines 62-67). -/
def parse_log_date (s : String) : Option PyDT := parseLogDateCl s.data

/-! ## `analyze_file` (lines 69-110) -/

structure ScanState where
  buckets : List (String × LogMetrics)
  minTs : Option PyDT
  maxTs : Option PyDT

/-- One record added to its day bucket (`metrics_by_date` is an
insertion-ordered dict; a fresh bucket is created on first use). -/
def bucketUpdate (bs : List (String × LogMetrics)) (k : String) (r : RecD) :
    List (String × LogMetrics) :=
  if bs.any fun p => p.1 = k then
    bs.map fun p => if p.1 = k then (p.1, applyUpdate p.2 r) else p
  else bs ++ [(k, applyUpdate emptyMetrics r)]

/-- The body of `analyze_file`'s loop for one raw line: strip, skip empty,
parse, parse the timestamp, track min/max (`ts < min_ts` / `ts > max_ts`
compare instants), and update the day bucket. -/
def processLine (st : ScanState) (raw : String) : ScanState :=
  let line := pyStrip raw
  if line = "" then st
  else
    match parse_log_line line with
    | none => st
    | some data =>
      match parse_log_date data.date with
      | none => st
      | some ts =>
        { buckets := bucketUpdate st.buckets (dateKey ts) data
          minTs := some (match st.minTs with
            | none => ts
            | some m => if toInstant ts < toInstant m then ts else m)
          maxTs := some (match st.maxTs with
            | none => ts
            | some m => if toInstant m < toInstant ts then ts else m) }

def initState : ScanState := ⟨[], none, none⟩

/-- The whole-file scan. -/
def scan (lines : List String) : ScanState := lines.foldl processLine initState

/-- The day-bucket map after the scan, before the collapse decision. -/
def dayBuckets (lines : List String) : List (String × LogMetrics) :=
  (scan lines).buckets

/-- Sum of `total_requests` over a report. -/
def sumTotals (rep : List (String × LogMetrics)) : Nat :=
  (rep.map fun p => p.2.total_requests).sum

/-- Model of `analyze_file` on the file's lines: after the scan, if both extrema
exist and `max_ts - min_ts < timedelta(hours=24)` (86400000000 µs), merge
every day bucket into one fresh accumulator labelled `"Summary"`;
otherwise return the day buckets. -/
def analyze_file (lines : List String) : List (String × LogMetrics) :=
  let st := scan lines
  match st.minTs, st.maxTs with
  | some a, some b =>
    if toInstant b - toInstant a < 86400000000 then
      [("Summary", st.buckets.foldl (fun acc p => mergeM acc p.2) emptyMetrics)]
    else st.buckets
  | _, _ => st.buckets

/-- The timestamp a raw line contributes, when it matches the grammar and
its date parses. -/
def lineTs (raw : String) : Option PyDT :=
  match parse_log_line (pyStrip raw) with
  | none => none
  | some data => parse_log_date data.date

/-- All valid timestamps of a file, in order. -/
def validTs (lines : List String) : List PyDT := lines.filterMap lineTs

/-! ## Facts connecting the grammar to `update` -/

theorem mem_takeWhile (p : Char → Bool) (l : List Char) (c : Char)
    (h : c ∈ l.takeWhile p) : p c = true := by
  induction l with
  | nil => simp at h
  | cons d t ih =>
    by_cases hd : p d
    · rw [List.takeWhile_cons_of_pos hd] at h
      rcases List.mem_cons.mp h with rfl | h
      · exact hd
      · exact ih h
    · rw [List.takeWhile_cons_of_neg (by simpa using hd)] at h
      simp at h

theorem field1_prop (p : Char → Bool) (l : List Char) (x : List Char × List Char)
    (h : field1 p l = some x) : x.1 ≠ [] ∧ ∀ c ∈ x.1, p c = true := by
  unfold field1 at h
  by_cases ht : l.takeWhile p = []
  · rw [if_pos ht] at h
    exact absurd h (by simp)
  · rw [if_neg ht] at h
    have hx := Option.some.inj h
    rw [← hx]
    exact ⟨ht, fun c hc => mem_takeWhile p l c hc⟩

/-- Every record produced by the line parser carries a nonempty all-digit
status (the `\d+` group). -/
theorem parse_log_line_status (s : String) (r : RecD)
    (h : parse_log_line s = some r) :
    r.status.data ≠ [] ∧ ∀ c ∈ r.status.data, c.isDigit = true := by
  unfold parse_log_line at h
  rw [Option.map_eq_some'] at h
  obtain ⟨⟨r', rest⟩, hp, hr⟩ := h
  unfold parseCLFc at hp
  rw [Option.bind_eq_some] at hp
  obtain ⟨ipr, _, hp⟩ := hp
  rw [Option.bind_eq_some] at hp
  obtain ⟨r2, _, hp⟩ := hp
  rw [Option.bind_eq_some] at hp
  obtain ⟨dater, _, hp⟩ := hp
  rw [Option.bind_eq_some] at hp
  obtain ⟨r4, _, hp⟩ := hp
  rw [Option.bind_eq_some] at hp
  obtain ⟨reqr, _, hp⟩ := hp
  rw [Option.bind_eq_some] at hp
  obtain ⟨r6, _, hp⟩ := hp
  rw [Option.bind_eq_some] at hp
  obtain ⟨str, hstat, hp⟩ := hp
  rw [Option.bind_eq_some] at hp
  obtain ⟨r8, _, hp⟩ := hp
  rw [Option.bind_eq_some] at hp
  obtain ⟨szr, _, hp⟩ := hp
  rw [Option.bind_eq_some] at hp
  obtain ⟨r10, _, hp⟩ := hp
  rw [Option.bind_eq_some] at hp
  obtain ⟨r12, _, hp⟩ := hp
  rw [Option.map_eq_some'] at hp
  obtain ⟨r14, _, hp⟩ := hp
  injection hp with hrec _
  have := field1_prop _ _ _ hstat
  rw [← hr, ← hrec]
  exact this

theorem digit_not_ws (c : Char) (h : c.isDigit = true) : isPyWS c = false := by
  have h1 : ¬ (c = ' ' ∨ c = '\t' ∨ c = '\n' ∨ c = '\r' ∨ c = '\x0b' ∨ c = '\x0c') := by
    rintro (rfl | rfl | rfl | rfl | rfl | rfl) <;> exact absurd h (by decide)
  push_neg at h1
  simp [isPyWS, h1.1, h1.2.1, h1.2.2.1, h1.2.2.2.1, h1.2.2.2.2.1, h1.2.2.2.2.2]

theorem digitsVal_digits (l : List Char) (acc : Nat)
    (h : ∀ c ∈ l, c.isDigit = true) : ∃ n, digitsVal l acc = some n := by
  induction l generalizing acc with
  | nil => exact ⟨acc, rfl⟩
  | cons c t ih =>
    have hc : c.isDigit = true := h c (by simp)
    unfold digitsVal
    rw [if_pos hc]
    exact ih _ fun x hx => h x (by simp [hx])

theorem pyStripCl_digits (l : List Char) (h : ∀ c ∈ l, c.isDigit = true) :
    pyStripCl l = l := by
  unfold pyStripCl
  have h1 : l.dropWhile isPyWS = l := by
    cases l with
    | nil => rfl
    | cons c t =>
      exact List.dropWhile_cons_of_neg (by simp [digit_not_ws c (h c (by simp))])
  rw [h1]
  have h2 : l.reverse.dropWhile isPyWS = l.reverse := by
    cases hrev : l.reverse with
    | nil => rfl
    | cons c t =>
      have hc : c ∈ l := by
        have : c ∈ l.reverse := by rw [hrev]; simp
        simpa using this
      exact List.dropWhile_cons_of_neg (by simp [digit_not_ws c (h c hc)])
  rw [h2, List.reverse_reverse]

/-- Conversion by `int()` succeeds on a nonempty digit run. -/
theorem pyInt_digits (l : List Char) (hne : l ≠ [])
    (h : ∀ c ∈ l, c.isDigit = true) : ∃ n : Nat, pyInt ⟨l⟩ = some (n : Int) := by
  unfold pyInt
  rw [data_mk, pyStripCl_digits l h]
  cases l with
  | nil => exact absurd rfl hne
  | cons c t =>
    have hc : c.isDigit = true := h c (by simp)
    have hplus : c ≠ '+' := fun he => absurd hc (by rw [he]; decide)
    have hminus : c ≠ '-' := fun he => absurd hc (by rw [he]; decide)
    obtain ⟨n, hn⟩ := digitsVal_digits t (dval c) fun x hx => h x (by simp [hx])
    have hd : pyDigits (c :: t) = some n := by
      simp only [pyDigits, hc, if_true, hn]
    split
    · next heq => exact absurd (List.cons.inj heq).1 hplus
    · next heq => exact absurd (List.cons.inj heq).1 hminus
    · exact ⟨n, by rw [hd]; rfl⟩

/-- For a record whose status is a nonempty digit run — as the grammar
guarantees — `update` never raises. -/
theorem update_ok_of_digits (m : LogMetrics) (r : RecD)
    (hne : r.status.data ≠ []) (h : ∀ c ∈ r.status.data, c.isDigit = true) :
    ∃ m', update m r = Except.ok m' := by
  obtain ⟨n, hn⟩ := pyInt_digits r.status.data hne h
  unfold update
  rw [hn]
  dsimp only
  by_cases h4 : 400 ≤ (n : Int) ∧ (n : Int) < 500
  · rw [if_pos h4]
    exact ⟨_, rfl⟩
  · rw [if_neg h4]
    by_cases h5 : 500 ≤ (n : Int) ∧ (n : Int) < 600
    · rw [if_pos h5]
      exact ⟨_, rfl⟩
    · rw [if_neg h5]
      exact ⟨_, rfl⟩

/-! ## The scan invariant of `analyze_file` -/

theorem applyUpdate_total (m : LogMetrics) (r : RecD) :
    (applyUpdate m r).total_requests = m.total_requests + 1 := by
  rw [applyUpdate_eq]

theorem bAny_iff (bs : List (String × LogMetrics)) (k : String) :
    (bs.any fun p => p.1 = k) = true ↔ k ∈ bs.map Prod.fst := by
  rw [List.any_eq_true]
  constructor
  · rintro ⟨p, hp, he⟩
    exact List.mem_map.mpr ⟨p, hp, of_decide_eq_true he⟩
  · intro h
    rcases List.mem_map.mp h with ⟨p, hp, he⟩
    exact ⟨p, hp, decide_eq_true he⟩

theorem bKeys_mapAdj (bs : List (String × LogMetrics)) (k : String) (r : RecD) :
    ((bs.map fun p => if p.1 = k then (p.1, applyUpdate p.2 r) else p).map
      Prod.fst) = bs.map Prod.fst := by
  induction bs with
  | nil => rfl
  | cons p t ih =>
    obtain ⟨a, b⟩ := p
    by_cases hp : a = k <;> simp [hp, ih]

theorem mapAdj_id (bs : List (String × LogMetrics)) (k : String)
    (r : RecD) (h : k ∉ bs.map Prod.fst) :
    (bs.map fun p => if p.1 = k then (p.1, applyUpdate p.2 r) else p) = bs := by
  induction bs with
  | nil => rfl
  | cons p t ih =>
    obtain ⟨a, b⟩ := p
    have hp : ¬ a = k := fun he => h (by simp [he])
    have ht : k ∉ t.map Prod.fst := fun hm => h (by simp [hm])
    simp [hp, ih ht]

theorem sumTotals_nil : sumTotals [] = 0 := rfl

theorem sumTotals_cons (p : String × LogMetrics) (t : List (String × LogMetrics)) :
    sumTotals (p :: t) = p.2.total_requests + sumTotals t := by
  simp [sumTotals]

theorem sumTotals_append (a b : List (String × LogMetrics)) :
    sumTotals (a ++ b) = sumTotals a + sumTotals b := by
  simp [sumTotals]

theorem sumTotals_mapAdj (bs : List (String × LogMetrics)) (k : String)
    (r : RecD) (hnd : (bs.map Prod.fst).Nodup) (hmem : k ∈ bs.map Prod.fst) :
    sumTotals (bs.map fun p => if p.1 = k then (p.1, applyUpdate p.2 r) else p)
      = sumTotals bs + 1 := by
  induction bs with
  | nil => simp at hmem
  | cons p t ih =>
    obtain ⟨a, b⟩ := p
    simp only [List.map_cons, List.nodup_cons] at hnd
    by_cases hp : a = k
    · subst hp
      have hid := mapAdj_id t a r hnd.1
      simp [hid, sumTotals_cons, applyUpdate_total]
      omega
    · have hm : k ∈ t.map Prod.fst := by
        simp only [List.map_cons, List.mem_cons] at hmem
        rcases hmem with h | h
        · exact absurd h.symm hp
        · exact h
      simp [sumTotals_cons, hp, ih hnd.2 hm]
      omega

theorem bucketUpdate_keys (bs : List (String × LogMetrics)) (k : String)
    (r : RecD) :
    (bucketUpdate bs k r).map Prod.fst
      = if k ∈ bs.map Prod.fst then bs.map Prod.fst
        else bs.map Prod.fst ++ [k] := by
  unfold bucketUpdate
  by_cases hmem : bs.any fun p => p.1 = k
  · rw [if_pos hmem, if_pos ((bAny_iff bs k).mp hmem), bKeys_mapAdj]
  · rw [if_neg hmem, if_neg (fun h => hmem ((bAny_iff bs k).mpr h))]
    simp

theorem bucketUpdate_total (bs : List (String × LogMetrics)) (k : String)
    (r : RecD) (hnd : (bs.map Prod.fst).Nodup) :
    sumTotals (bucketUpdate bs k r) = sumTotals bs + 1 := by
  unfold bucketUpdate
  by_cases hmem : bs.any fun p => p.1 = k
  · rw [if_pos hmem]
    exact sumTotals_mapAdj bs k r hnd ((bAny_iff bs k).mp hmem)
  · rw [if_neg hmem, sumTotals_append, sumTotals_cons, sumTotals_nil,
      applyUpdate_total]
    simp [emptyMetrics]

/-- The invariant carried through the scan: `ts` is the list of valid
timestamps seen so far. -/
structure ScanInv (st : ScanState) (ts : List PyDT) : Prop where
  min_none : st.minTs = none → ts = []
  max_none : st.maxTs = none → ts = []
  min_mem : ∀ a, st.minTs = some a →
    a ∈ ts ∧ ∀ t ∈ ts, toInstant a ≤ toInstant t
  max_mem : ∀ b, st.maxTs = some b →
    b ∈ ts ∧ ∀ t ∈ ts, toInstant t ≤ toInstant b
  min_some : ts ≠ [] → st.minTs.isSome
  max_some : ts ≠ [] → st.maxTs.isSome
  keys_nodup : (st.buckets.map Prod.fst).Nodup
  keys_mem : ∀ k, k ∈ st.buckets.map Prod.fst ↔ k ∈ ts.map dateKey
  total : sumTotals st.buckets = ts.length

theorem scanInv_init : ScanInv initState [] := by
  constructor <;> simp [initState, sumTotals]

/-- A line with no valid timestamp leaves the scan state unchanged. -/
theorem processLine_id (st : ScanState) (raw : String)
    (h : lineTs raw = none) : processLine st raw = st := by
  unfold processLine
  unfold lineTs at h
  by_cases hempty : pyStrip raw = ""
  · simp [hempty]
  · simp only [hempty, if_false]
    cases hp : parse_log_line (pyStrip raw) with
    | none => simp
    | some data =>
      rw [hp] at h
      have hd : parse_log_date data.date = none := h
      simp [hd]

theorem processLine_valid (st : ScanState) (raw : String) (t0 : PyDT)
    (h : lineTs raw = some t0) :
    ∃ data, parse_log_line (pyStrip raw) = some data
      ∧ parse_log_date data.date = some t0
      ∧ processLine st raw =
        { buckets := bucketUpdate st.buckets (dateKey t0) data
          minTs := some (match st.minTs with
            | none => t0
            | some m => if toInstant t0 < toInstant m then t0 else m)
          maxTs := some (match st.maxTs with
            | none => t0
            | some m => if toInstant m < toInstant t0 then t0 else m) } := by
  unfold lineTs at h
  cases hp : parse_log_line (pyStrip raw) with
  | none =>
    rw [hp] at h
    exact absurd h (by simp)
  | some data =>
    rw [hp] at h
    have hd : parse_log_date data.date = some t0 := h
    refine ⟨data, rfl, hd, ?_⟩
    have hne : pyStrip raw ≠ "" := by
      intro he
      rw [he, parse_log_line_empty] at hp
      exact absurd hp (by simp)
    unfold processLine
    simp only [hne, if_false, hp, hd]

theorem scanInv_step (st : ScanState) (ts : List PyDT) (raw : String)
    (h : ScanInv st ts) :
    ScanInv (processLine st raw) (ts ++ (lineTs raw).toList) := by
  cases hlt : lineTs raw with
  | none =>
    rw [processLine_id st raw hlt]
    simpa using h
  | some t0 =>
    obtain ⟨data, hp, hd, hproc⟩ := processLine_valid st raw t0 hlt
    rw [hproc]
    simp only [Option.toList_some]
    constructor
    · intro habs
      simp at habs
    · intro habs
      simp at habs
    · intro a ha
      rw [Option.some.injEq] at ha
      cases hmin : st.minTs with
      | none =>
        rw [hmin] at ha
        have hts : ts = [] := h.min_none hmin
        subst hts
        have ha2 : t0 = a := ha
        subst ha2
        refine ⟨by simp, ?_⟩
        intro t ht
        simp at ht
        subst ht
        exact le_refl _
      | some m =>
        rw [hmin] at ha
        have ha2 : (if toInstant t0 < toInstant m then t0 else m) = a := ha
        obtain ⟨hm_mem, hm_bound⟩ := h.min_mem m hmin
        by_cases hlt2 : toInstant t0 < toInstant m
        · rw [if_pos hlt2] at ha2
          subst ha2
          refine ⟨by simp, ?_⟩
          intro t ht
          rcases List.mem_append.mp ht with ht | ht
          · exact le_of_lt (lt_of_lt_of_le hlt2 (hm_bound t ht))
          · simp at ht
            subst ht
            exact le_refl _
        · rw [if_neg hlt2] at ha2
          subst ha2
          refine ⟨List.mem_append.mpr (Or.inl hm_mem), ?_⟩
          intro t ht
          rcases List.mem_append.mp ht with ht | ht
          · exact hm_bound t ht
          · simp at ht
            subst ht
            omega
    · intro b hb
      rw [Option.some.injEq] at hb
      cases hmax : st.maxTs with
      | none =>
        rw [hmax] at hb
        have hts : ts = [] := h.max_none hmax
        subst hts
        have hb2 : t0 = b := hb
        subst hb2
        refine ⟨by simp, ?_⟩
        intro t ht
        simp at ht
        subst ht
        exact le_refl _
      | some m =>
        rw [hmax] at hb
        have hb2 : (if toInstant m < toInstant t0 then t0 else m) = b := hb
        obtain ⟨hm_mem, hm_bound⟩ := h.max_mem m hmax
        by_cases hlt2 : toInstant m < toInstant t0
        · rw [if_pos hlt2] at hb2
          subst hb2
          refine ⟨by simp, ?_⟩
          intro t ht
          rcases List.mem_append.mp ht with ht | ht
          · exact le_of_lt (lt_of_le_of_lt (hm_bound t ht) hlt2)
          · simp at ht
            subst ht
            exact le_refl _
        · rw [if_neg hlt2] at hb2
          subst hb2
          refine ⟨List.mem_append.mpr (Or.inl hm_mem), ?_⟩
          intro t ht
          rcases List.mem_append.mp ht with ht | ht
          · exact hm_bound t ht
          · simp at ht
            subst ht
            omega
    · intro _
      simp
    · intro _
      simp
    · rw [bucketUpdate_keys]
      by_cases hmem : dateKey t0 ∈ st.buckets.map Prod.fst
      · rw [if_pos hmem]
        exact h.keys_nodup
      · rw [if_neg hmem]
        refine List.nodup_append.mpr ⟨h.keys_nodup, List.nodup_singleton _, ?_⟩
        intro x hx hx2
        rw [List.mem_singleton] at hx2
        subst hx2
        exact hmem hx
    · intro k
      rw [bucketUpdate_keys]
      simp only [List.map_append, List.map_cons, List.map_nil]
      by_cases hmem : dateKey t0 ∈ st.buckets.map Prod.fst
      · rw [if_pos hmem]
        constructor
        · intro hk
          exact List.mem_append.mpr (Or.inl ((h.keys_mem k).mp hk))
        · intro hk
          rcases List.mem_append.mp hk with hk | hk
          · exact (h.keys_mem k).mpr hk
          · rw [List.mem_singleton] at hk
            subst hk
            exact hmem
      · rw [if_neg hmem]
        constructor
        · intro hk
          rcases List.mem_append.mp hk with hk | hk
          · exact List.mem_append.mpr (Or.inl ((h.keys_mem k).mp hk))
          · rw [List.mem_singleton] at hk
            subst hk
            exact List.mem_append.mpr (Or.inr (by simp))
        · intro hk
          rcases List.mem_append.mp hk with hk | hk
          · exact List.mem_append.mpr (Or.inl ((h.keys_mem k).mpr hk))
          · rw [List.mem_singleton] at hk
            subst hk
            exact List.mem_append.mpr (Or.inr (by simp))
    · rw [bucketUpdate_total _ _ _ h.keys_nodup, h.total]
      simp

/-- Unfolding of `filterMap` over a cons, phrased for the scan. -/
theorem validTs_cons (raw : String) (rest : List String) :
    validTs (raw :: rest) = (lineTs raw).toList ++ validTs rest := by
  unfold validTs
  cases h : lineTs raw with
  | none => simp [List.filterMap_cons, h]
  | some t => simp [List.filterMap_cons, h]

theorem scanInv_fold (lines : List String) (st : ScanState) (ts : List PyDT)
    (h : ScanInv st ts) :
    ScanInv (lines.foldl processLine st) (ts ++ validTs lines) := by
  induction lines generalizing st ts with
  | nil => simpa [validTs] using h
  | cons raw rest ih =>
    have hstep := scanInv_step st ts raw h
    have := ih _ _ hstep
    rw [validTs_cons]
    simpa [List.append_assoc] using this

/-- The scan satisfies the invariant with exactly the file's valid
timestamps. -/
theorem scanInv_all (lines : List String) :
    ScanInv (scan lines) (validTs lines) := by
  have := scanInv_fold lines initState [] scanInv_init
  simpa [scan] using this

theorem digitChar_lt10_ne_S : ∀ n < 10, Nat.digitChar n ≠ 'S' := by decide

theorem dateKey_ne_summary (t : PyDT) : dateKey t ≠ "Summary" := by
  intro h
  have hd : (dateKey t).data = "Summary".data := by rw [h]
  unfold dateKey at hd
  rw [data_mk] at hd
  unfold pad4 at hd
  have hhead := (List.cons.inj hd).1
  exact digitChar_lt10_ne_S _ (Nat.mod_lt _ (by omega)) hhead

theorem fold_merge_total (bs : List (String × LogMetrics)) (a : LogMetrics) :
    (bs.foldl (fun acc p => mergeM acc p.2) a).total_requests
      = a.total_requests + sumTotals bs := by
  induction bs generalizing a with
  | nil => simp [sumTotals]
  | cons p t ih =>
    rw [List.foldl_cons, ih, sumTotals_cons]
    show (mergeM a p.2).total_requests + sumTotals t = _
    unfold mergeM
    dsimp
    omega

theorem lineTs_of_parse_none (s : String)
    (h : parse_log_line (pyStrip s) = none) : lineTs s = none := by
  unfold lineTs
  simp only [h]

theorem lineTs_of_date_none (s : String) (r : RecD)
    (hp : parse_log_line (pyStrip s) = some r)
    (hd : parse_log_date r.date = none) : lineTs s = none := by
  unfold lineTs
  simp only [hp, hd]

/-- Inserting a line with no valid timestamp anywhere in the file leaves the
whole analysis unchanged. -/
theorem analyze_insensitive (pre post : List String) (s : String)
    (h : lineTs s = none) :
    analyze_file (pre ++ s :: post) = analyze_file (pre ++ post) := by
  have hscan : scan (pre ++ s :: post) = scan (pre ++ post) := by
    unfold scan
    rw [List.foldl_append, List.foldl_append, List.foldl_cons,
      processLine_id _ _ h]
  unfold analyze_file
  rw [hscan]

/-- C1: after the scan, the report shape is decided by the observed span:
with at least one valid timestamp and all instants within < 24 hours, a
single `"Summary"` bucket holding the merge of the day buckets; with a pair
of instants ≥ 24 hours apart, the day buckets themselves — one per distinct
calendar date, no `"Summary"` key; with no valid timestamp, empty. -/
theorem analyze_file_bucketing (lines : List String) :
    (validTs lines ≠ [] →
      (∀ a ∈ validTs lines, ∀ b ∈ validTs lines,
        toInstant b - toInstant a < 86400000000) →
      analyze_file lines
        = [("Summary",
            (dayBuckets lines).foldl (fun acc p => mergeM acc p.2) emptyMetrics)])
    ∧ ((∃ a ∈ validTs lines, ∃ b ∈ validTs lines,
          86400000000 ≤ toInstant b - toInstant a) →
        analyze_file lines = dayBuckets lines
        ∧ ((dayBuckets lines).map Prod.fst).Nodup
        ∧ (∀ k, k ∈ (dayBuckets lines).map Prod.fst
            ↔ k ∈ (validTs lines).map dateKey)
        ∧ "Summary" ∉ (dayBuckets lines).map Prod.fst)
    ∧ (validTs lines = [] → analyze_file lines = []) := by
  have hinv := scanInv_all lines
  refine ⟨?_, ?_, ?_⟩
  · intro hne hdiff
    obtain ⟨a, hmin⟩ := Option.isSome_iff_exists.mp (hinv.min_some hne)
    obtain ⟨b, hmax⟩ := Option.isSome_iff_exists.mp (hinv.max_some hne)
    obtain ⟨ha_mem, _⟩ := hinv.min_mem a hmin
    obtain ⟨hb_mem, _⟩ := hinv.max_mem b hmax
    unfold analyze_file
    simp only [hmin, hmax]
    rw [if_pos (hdiff a ha_mem b hb_mem)]
    rfl
  · rintro ⟨a, ha_mem, b, hb_mem, hge⟩
    have hne : validTs lines ≠ [] := by
      intro he
      rw [he] at ha_mem
      simp at ha_mem
    obtain ⟨a0, hmin⟩ := Option.isSome_iff_exists.mp (hinv.min_some hne)
    obtain ⟨b0, hmax⟩ := Option.isSome_iff_exists.mp (hinv.max_some hne)
    obtain ⟨_, ha0_bound⟩ := hinv.min_mem a0 hmin
    obtain ⟨_, hb0_bound⟩ := hinv.max_mem b0 hmax
    have h1 := ha0_bound a ha_mem
    have h2 := hb0_bound b hb_mem
    have hcond : ¬ (toInstant b0 - toInstant a0 < 86400000000) := by omega
    unfold analyze_file
    simp only [hmin, hmax]
    rw [if_neg hcond]
    refine ⟨rfl, hinv.keys_nodup, hinv.keys_mem, ?_⟩
    intro hs
    rcases List.mem_map.mp ((hinv.keys_mem "Summary").mp hs) with ⟨t, _, ht⟩
    exact dateKey_ne_summary t ht
  · intro hempty
    have hmin : (scan lines).minTs = none := by
      cases hm : (scan lines).minTs with
      | none => rfl
      | some a =>
        obtain ⟨ha, _⟩ := hinv.min_mem a hm
        rw [hempty] at ha
        simp at ha
    have hmax : (scan lines).maxTs = none := by
      cases hm : (scan lines).maxTs with
      | none => rfl
      | some b =>
        obtain ⟨hb, _⟩ := hinv.max_mem b hm
        rw [hempty] at hb
        simp at hb
    have hbempty : (scan lines).buckets = [] := by
      cases hb : (scan lines).buckets with
      | nil => rfl
      | cons p t =>
        have : p.1 ∈ (scan lines).buckets.map Prod.fst := by simp [hb]
        have := (hinv.keys_mem p.1).mp this
        rw [hempty] at this
        simp at this
    unfold analyze_file
    simp only [hmin, hmax, hbempty]

/-- C1 witness: on a one-line unparseable file there is no valid timestamp
and the report is empty; on a concrete two-line same-day file the span is
under 24 hours and the report is the single merged `"Summary"` bucket. -/
theorem analyze_file_bucketing_witness :
    analyze_file ["not a log line"] = []
    ∧ analyze_file
        ["1.2.3.4 - - [09/Dec/2025:11:00:00 -0600] \"GET / HTTP/1.1\" 200 10 \"-\" \"UA1\"",
         "1.2.3.4 - - [09/Dec/2025:12:00:00 -0600] \"GET /x HTTP/1.1\" 404 10 \"-\" \"UA2\""]
      = [("Summary",
          (dayBuckets
            ["1.2.3.4 - - [09/Dec/2025:11:00:00 -0600] \"GET / HTTP/1.1\" 200 10 \"-\" \"UA1\"",
             "1.2.3.4 - - [09/Dec/2025:12:00:00 -0600] \"GET /x HTTP/1.1\" 404 10 \"-\" \"UA2\""]).foldl
            (fun acc p => mergeM acc p.2) emptyMetrics)] :=
  ⟨(analyze_file_bucketing ["not a log line"]).2.2 (by decide),
   (analyze_file_bucketing _).1 (by decide) (by decide)⟩

/-- C5: a line that does not match the Combined Log Format grammar yields
the explicit no-match result (`None`, not an exception), and `analyze_file`
skips it, leaving every aggregate unchanged; `'Invalid Log Line'` is such a
line. -/
theorem parse_failure_skipped :
    parse_log_line "Invalid Log Line" = none
    ∧ ∀ (pre post : List String) (s : String),
        parse_log_line (pyStrip s) = none →
        analyze_file (pre ++ s :: post) = analyze_file (pre ++ post) := by
  refine ⟨by decide, ?_⟩
  intro pre post s h
  exact analyze_insensitive pre post s (lineTs_of_parse_none s h)

/-- C5 witness: inserting `'Invalid Log Line'` into a concrete file changes
nothing. -/
theorem parse_failure_skipped_witness :
    analyze_file
      (["1.2.3.4 - - [09/Dec/2025:11:00:00 -0600] \"GET / HTTP/1.1\" 200 10 \"-\" \"UA1\""]
        ++ "Invalid Log Line"
        :: ["1.2.3.4 - - [09/Dec/2025:12:00:00 -0600] \"GET /x HTTP/1.1\" 404 10 \"-\" \"UA2\""])
      = analyze_file
      (["1.2.3.4 - - [09/Dec/2025:11:00:00 -0600] \"GET / HTTP/1.1\" 200 10 \"-\" \"UA1\""]
        ++ ["1.2.3.4 - - [09/Dec/2025:12:00:00 -0600] \"GET /x HTTP/1.1\" 404 10 \"-\" \"UA2\""]) :=
  parse_failure_skipped.2 _ _ "Invalid Log Line" (by decide)

/-- C6: a grammar-matching line whose date fails timestamp parsing
contributes nothing to the analysis (it is excluded from min/max tracking
and from every bucket), and the total request counts over all returned
buckets sum to exactly the number of lines that matched the grammar and
carried a parseable timestamp. -/
theorem analyze_file_totals (lines : List String) :
    sumTotals (analyze_file lines) = (validTs lines).length
    ∧ ∀ (pre post : List String) (s : String) (r : RecD),
        parse_log_line (pyStrip s) = some r →
        parse_log_date r.date = none →
        analyze_file (pre ++ s :: post) = analyze_file (pre ++ post) := by
  constructor
  · have hinv := scanInv_all lines
    unfold analyze_file
    cases hmin : (scan lines).minTs with
    | none =>
      simp only [hmin]
      exact hinv.total
    | some a =>
      cases hmax : (scan lines).maxTs with
      | none =>
        simp only [hmin, hmax]
        exact hinv.total
      | some b =>
        simp only [hmin, hmax]
        by_cases hcond : toInstant b - toInstant a < 86400000000
        · rw [if_pos hcond]
          rw [sumTotals_cons, sumTotals_nil, fold_merge_total]
          simp [emptyMetrics, hinv.total]
        · rw [if_neg hcond]
          exact hinv.total
  · intro pre post s r hp hd
    exact analyze_insensitive pre post s (lineTs_of_date_none s r hp hd)

/-- C6 witness: a line with a malformed date is parsed by the grammar but
dropped from the analysis, and a concrete file's totals count only the
valid-timestamp lines. -/
theorem analyze_file_totals_witness :
    sumTotals (analyze_file
      ["1.2.3.4 - - [bad date] \"GET / HTTP/1.1\" 200 10 \"-\" \"UA1\"",
       "1.2.3.4 - - [09/Dec/2025:11:00:00 -0600] \"GET / HTTP/1.1\" 200 10 \"-\" \"UA1\""]) = 1
    ∧ analyze_file
        ([] ++ "1.2.3.4 - - [bad date] \"GET / HTTP/1.1\" 200 10 \"-\" \"UA1\""
          :: ["1.2.3.4 - - [09/Dec/2025:11:00:00 -0600] \"GET / HTTP/1.1\" 200 10 \"-\" \"UA1\""])
      = analyze_file
        ([] ++ ["1.2.3.4 - - [09/Dec/2025:11:00:00 -0600] \"GET / HTTP/1.1\" 200 10 \"-\" \"UA1\""]) := by
  constructor
  · rw [(analyze_file_totals _).1]
    decide
  · exact (analyze_file_totals []).2 [] _ _
      ⟨"1.2.3.4", "bad date", "GET / HTTP/1.1", "200", "10", "-", "UA1"⟩
      (by decide) (by decide)

/-! ## The renderer's ranking (`print_metrics` / `Counter.most_common(20)`)

`most_common(n)` is `heapq.nlargest(n, items, key=count)`: a stable
descending sort on the count — equal counts keep the order of the
underlying dict, which is insertion order — truncated to `n`. -/

/-- Insert before the first entry whose count is `≤` the new entry's count
(stable descending insertion). -/
def insertDesc (p : String × Nat) : List (String × Nat) → List (String × Nat)
  | [] => [p]
  | q :: t => if q.2 ≤ p.2 then p :: q :: t else q :: insertDesc p t

/-- Stable descending sort by count. -/
def sortDesc (l : List (String × Nat)) : List (String × Nat) :=
  l.foldr insertDesc []

/-- Model of `Counter.most_common(n)`. -/
def mostCommon (n : Nat) (c : Cnt) : List (String × Nat) := (sortDesc c).take n

/-- The three ranked top-20 lists rendered by `print_metrics`
(lines 120-132). -/
def renderTops (m : LogMetrics) :
    List (String × Nat) × List (String × Nat) × List (String × Nat) :=
  (mostCommon 20 m.ip_counter, mostCommon 20 m.ua_counter,
   mostCommon 20 m.uri_counter)

/-- A fresh accumulator fed a record list (`LogMetrics()` then `update`
once per record). -/
def accum (rs : List RecD) : LogMetrics := rs.foldl applyUpdate emptyMetrics

theorem mem_insertDesc (p x : String × Nat) (l : List (String × Nat))
    (h : x ∈ insertDesc p l) : x = p ∨ x ∈ l := by
  induction l with
  | nil => simpa [insertDesc] using h
  | cons q t ih =>
    unfold insertDesc at h
    by_cases hq : q.2 ≤ p.2
    · rw [if_pos hq] at h
      rcases List.mem_cons.mp h with h | h
      · exact Or.inl h
      · exact Or.inr h
    · rw [if_neg hq] at h
      rcases List.mem_cons.mp h with h | h
      · exact Or.inr (by simp [h])
      · rcases ih h with h | h
        · exact Or.inl h
        · exact Or.inr (by simp [h])

theorem insertDesc_perm (p : String × Nat) (l : List (String × Nat)) :
    (insertDesc p l).Perm (p :: l) := by
  induction l with
  | nil => simp [insertDesc]
  | cons q t ih =>
    unfold insertDesc
    by_cases hq : q.2 ≤ p.2
    · rw [if_pos hq]
    · rw [if_neg hq]
      exact (ih.cons q).trans (List.Perm.swap p q t)

theorem sortDesc_perm (l : List (String × Nat)) : (sortDesc l).Perm l := by
  induction l with
  | nil => simp [sortDesc]
  | cons p t ih =>
    show (insertDesc p (sortDesc t)).Perm (p :: t)
    exact (insertDesc_perm p (sortDesc t)).trans (ih.cons p)

theorem insertDesc_pairwise (p : String × Nat) (l : List (String × Nat))
    (h : l.Pairwise fun a b => b.2 ≤ a.2) :
    (insertDesc p l).Pairwise fun a b => b.2 ≤ a.2 := by
  induction l with
  | nil => simp [insertDesc]
  | cons q t ih =>
    rw [List.pairwise_cons] at h
    unfold insertDesc
    by_cases hq : q.2 ≤ p.2
    · rw [if_pos hq]
      refine List.pairwise_cons.mpr ⟨?_, List.pairwise_cons.mpr ⟨h.1, h.2⟩⟩
      intro x hx
      rcases List.mem_cons.mp hx with rfl | hx
      · exact hq
      · exact le_trans (h.1 x hx) hq
    · rw [if_neg hq]
      refine List.pairwise_cons.mpr ⟨?_, ih h.2⟩
      intro x hx
      rcases mem_insertDesc p x t hx with rfl | hx
      · omega
      · exact h.1 x hx

theorem sortDesc_pairwise (l : List (String × Nat)) :
    (sortDesc l).Pairwise fun a b => b.2 ≤ a.2 := by
  induction l with
  | nil => simp [sortDesc]
  | cons p t ih => exact insertDesc_pairwise p (sortDesc t) ih

theorem filter_insertDesc (p : String × Nat) (l : List (String × Nat))
    (c : Nat) :
    (insertDesc p l).filter (fun q => q.2 = c)
      = if p.2 = c then p :: l.filter (fun q => q.2 = c)
        else l.filter (fun q => q.2 = c) := by
  induction l with
  | nil =>
    by_cases hpc : p.2 = c <;> simp [insertDesc, List.filter, hpc]
  | cons q t ih =>
    unfold insertDesc
    by_cases hq : q.2 ≤ p.2
    · rw [if_pos hq]
      by_cases hpc : p.2 = c <;> simp [List.filter_cons, hpc]
    · rw [if_neg hq]
      by_cases hpc : p.2 = c
      · have hqc : ¬ q.2 = c := by omega
        simp [List.filter_cons, hqc, ih, hpc]
      · by_cases hqc : q.2 = c <;> simp [List.filter_cons, hqc, ih, hpc]

theorem filter_sortDesc (l : List (String × Nat)) (c : Nat) :
    (sortDesc l).filter (fun q => q.2 = c) = l.filter (fun q => q.2 = c) := by
  induction l with
  | nil => simp [sortDesc]
  | cons p t ih =>
    show (insertDesc p (sortDesc t)).filter _ = _
    rw [filter_insertDesc]
    by_cases hpc : p.2 = c <;> simp [List.filter_cons, hpc, ih]

/-- C3: the renderer's top-20 list over any frequency table is the stable
descending sort by count truncated to 20: counts are non-increasing, the
full ranking is a permutation of the table, entries with any fixed count
appear exactly in the table's (first-insertion) order, and what the top-20
shows of each count class is a prefix of that order; in particular, two
addresses seen twice each rank in first-seen order. -/
theorem mostCommon_spec :
    (∀ tbl : Cnt,
      mostCommon 20 tbl = (sortDesc tbl).take 20
      ∧ (sortDesc tbl).Perm tbl
      ∧ ((sortDesc tbl).Pairwise fun a b => b.2 ≤ a.2)
      ∧ (∀ cnt : Nat, (sortDesc tbl).filter (fun q => q.2 = cnt)
          = tbl.filter (fun q => q.2 = cnt))
      ∧ ∀ cnt : Nat, ∃ suffix,
          tbl.filter (fun q => q.2 = cnt)
            = (mostCommon 20 tbl).filter (fun q => q.2 = cnt) ++ suffix)
    ∧ (renderTops (accum
        [⟨"1.1.1.1", "d", "GET /a HTTP/1.1", "200", "1", "-", "UA"⟩,
         ⟨"2.2.2.2", "d", "GET /a HTTP/1.1", "200", "1", "-", "UA"⟩,
         ⟨"1.1.1.1", "d", "GET /a HTTP/1.1", "200", "1", "-", "UA"⟩,
         ⟨"2.2.2.2", "d", "GET /a HTTP/1.1", "200", "1", "-", "UA"⟩])).1
      = [("1.1.1.1", 2), ("2.2.2.2", 2)] := by
  constructor
  · intro tbl
    refine ⟨rfl, sortDesc_perm tbl, sortDesc_pairwise tbl,
      fun cnt => filter_sortDesc tbl cnt, ?_⟩
    intro cnt
    refine ⟨((sortDesc tbl).drop 20).filter (fun q => q.2 = cnt), ?_⟩
    rw [← filter_sortDesc tbl cnt]
    unfold mostCommon
    rw [← List.filter_append, List.take_append_drop]
  · decide

/-! ## Merge algebra (C2) -/

theorem applyUpdate_ip (m : LogMetrics) (r : RecD) :
    (applyUpdate m r).ip_counter = cInc m.ip_counter r.ip := by
  rw [applyUpdate_eq]

theorem applyUpdate_ua (m : LogMetrics) (r : RecD) :
    (applyUpdate m r).ua_counter = cInc m.ua_counter r.user_agent := by
  rw [applyUpdate_eq]

theorem applyUpdate_uri (m : LogMetrics) (r : RecD) :
    (applyUpdate m r).uri_counter = cInc m.uri_counter (uriOf r.request) := by
  rw [applyUpdate_eq]

theorem applyUpdate_ajax (m : LogMetrics) (r : RecD) :
    (applyUpdate m r).admin_ajax_count = m.admin_ajax_count
      + (if strIn ajaxLit (uriOf r.request) then 1 else 0) := by
  rw [applyUpdate_eq]

theorem applyUpdate_e4 (m : LogMetrics) (r : RecD) :
    (applyUpdate m r).err4xx = m.err4xx + (if is4xx r then 1 else 0) := by
  rw [applyUpdate_eq]

theorem applyUpdate_e5 (m : LogMetrics) (r : RecD) :
    (applyUpdate m r).err5xx = m.err5xx + (if is5xx r then 1 else 0) := by
  rw [applyUpdate_eq]

theorem foldl_update_total (rs : List RecD) (m : LogMetrics) :
    (rs.foldl applyUpdate m).total_requests = m.total_requests + rs.length := by
  induction rs generalizing m with
  | nil => simp
  | cons r t ih =>
    rw [List.foldl_cons, ih, applyUpdate_total, List.length_cons]
    omega

theorem foldl_update_e4 (rs : List RecD) (m : LogMetrics) :
    (rs.foldl applyUpdate m).err4xx
      = m.err4xx + rs.countP (fun r => is4xx r) := by
  induction rs generalizing m with
  | nil => simp
  | cons r t ih =>
    rw [List.foldl_cons, ih, applyUpdate_e4, List.countP_cons]
    by_cases h : is4xx r <;> simp [h] <;> omega

theorem foldl_update_e5 (rs : List RecD) (m : LogMetrics) :
    (rs.foldl applyUpdate m).err5xx
      = m.err5xx + rs.countP (fun r => is5xx r) := by
  induction rs generalizing m with
  | nil => simp
  | cons r t ih =>
    rw [List.foldl_cons, ih, applyUpdate_e5, List.countP_cons]
    by_cases h : is5xx r <;> simp [h] <;> omega

theorem foldl_update_ajax (rs : List RecD) (m : LogMetrics) :
    (rs.foldl applyUpdate m).admin_ajax_count
      = m.admin_ajax_count
        + rs.countP (fun r => strIn ajaxLit (uriOf r.request)) := by
  induction rs generalizing m with
  | nil => simp
  | cons r t ih =>
    rw [List.foldl_cons, ih, applyUpdate_ajax, List.countP_cons]
    by_cases h : strIn ajaxLit (uriOf r.request) <;> simp [h] <;> omega

theorem foldl_update_ip (rs : List RecD) (m : LogMetrics) (k : String) :
    cGet ((rs.foldl applyUpdate m).ip_counter) k
      = cGet m.ip_counter k + rs.countP (fun r => r.ip = k) := by
  induction rs generalizing m with
  | nil => simp
  | cons r t ih =>
    rw [List.foldl_cons, ih, applyUpdate_ip, cGet_cInc, List.countP_cons]
    by_cases h : r.ip = k <;> simp [h] <;> omega

theorem foldl_update_ua (rs : List RecD) (m : LogMetrics) (k : String) :
    cGet ((rs.foldl applyUpdate m).ua_counter) k
      = cGet m.ua_counter k + rs.countP (fun r => r.user_agent = k) := by
  induction rs generalizing m with
  | nil => simp
  | cons r t ih =>
    rw [List.foldl_cons, ih, applyUpdate_ua, cGet_cInc, List.countP_cons]
    by_cases h : r.user_agent = k <;> simp [h] <;> omega

theorem foldl_update_uri (rs : List RecD) (m : LogMetrics) (k : String) :
    cGet ((rs.foldl applyUpdate m).uri_counter) k
      = cGet m.uri_counter k + rs.countP (fun r => uriOf r.request = k) := by
  induction rs generalizing m with
  | nil => simp
  | cons r t ih =>
    rw [List.foldl_cons, ih, applyUpdate_uri, cGet_cInc, List.countP_cons]
    by_cases h : uriOf r.request = k <;> simp [h] <;> omega

theorem accum_nodup (rs : List RecD) :
    (cKeys (accum rs).ip_counter).Nodup
    ∧ (cKeys (accum rs).ua_counter).Nodup
    ∧ (cKeys (accum rs).uri_counter).Nodup := by
  unfold accum
  suffices h : ∀ (rs : List RecD) (m : LogMetrics),
      (cKeys m.ip_counter).Nodup → (cKeys m.ua_counter).Nodup →
      (cKeys m.uri_counter).Nodup →
      (cKeys ((rs.foldl applyUpdate m).ip_counter)).Nodup
      ∧ (cKeys ((rs.foldl applyUpdate m).ua_counter)).Nodup
      ∧ (cKeys ((rs.foldl applyUpdate m).uri_counter)).Nodup by
    exact h rs emptyMetrics (by simp [emptyMetrics]) (by simp [emptyMetrics])
      (by simp [emptyMetrics])
  intro rs
  induction rs with
  | nil => exact fun m h1 h2 h3 => ⟨h1, h2, h3⟩
  | cons r t ih =>
    intro m h1 h2 h3
    rw [List.foldl_cons]
    exact ih _ (by rw [applyUpdate_ip]; exact nodup_cInc _ _ h1)
      (by rw [applyUpdate_ua]; exact nodup_cInc _ _ h2)
      (by rw [applyUpdate_uri]; exact nodup_cInc _ _ h3)

/-- Field-by-field equality of aggregate values, with frequency tables
compared as value-to-count mappings. -/
def MEq (A B : LogMetrics) : Prop :=
  A.total_requests = B.total_requests
  ∧ A.err4xx = B.err4xx
  ∧ A.err5xx = B.err5xx
  ∧ A.admin_ajax_count = B.admin_ajax_count
  ∧ (∀ k, cGet A.ip_counter k = cGet B.ip_counter k)
  ∧ (∀ k, cGet A.ua_counter k = cGet B.ua_counter k)
  ∧ (∀ k, cGet A.uri_counter k = cGet B.uri_counter k)

theorem countP_flatten_sum (L : List (List RecD)) (p : RecD → Bool) :
    L.flatten.countP p = (L.map (List.countP p)).sum := by
  induction L with
  | nil => simp
  | cons a t ih => simp [List.countP_append, ih]

theorem fold_mergeM_nodup (parts : List (List RecD)) (A : LogMetrics)
    (h1 : (cKeys A.ip_counter).Nodup) (h2 : (cKeys A.ua_counter).Nodup)
    (h3 : (cKeys A.uri_counter).Nodup) :
    (cKeys (((parts.map accum).foldl mergeM A).ip_counter)).Nodup
    ∧ (cKeys (((parts.map accum).foldl mergeM A).ua_counter)).Nodup
    ∧ (cKeys (((parts.map accum).foldl mergeM A).uri_counter)).Nodup := by
  induction parts generalizing A with
  | nil => exact ⟨h1, h2, h3⟩
  | cons p t ih =>
    rw [List.map_cons, List.foldl_cons]
    exact ih _ (nodup_cAdd _ _ h1) (nodup_cAdd _ _ h2) (nodup_cAdd _ _ h3)

theorem fold_mergeM_num (parts : List (List RecD)) (A : LogMetrics) :
    ((parts.map accum).foldl mergeM A).total_requests
      = A.total_requests + (parts.map List.length).sum
    ∧ ((parts.map accum).foldl mergeM A).err4xx
      = A.err4xx + (parts.map (List.countP fun r => is4xx r)).sum
    ∧ ((parts.map accum).foldl mergeM A).err5xx
      = A.err5xx + (parts.map (List.countP fun r => is5xx r)).sum
    ∧ ((parts.map accum).foldl mergeM A).admin_ajax_count
      = A.admin_ajax_count
        + (parts.map (List.countP fun r =>
            strIn ajaxLit (uriOf r.request))).sum := by
  induction parts generalizing A with
  | nil => simp
  | cons p t ih =>
    rw [List.map_cons, List.foldl_cons]
    obtain ⟨i1, i2, i3, i4⟩ := ih (mergeM A (accum p))
    refine ⟨?_, ?_, ?_, ?_⟩
    · rw [i1]
      show (mergeM A (accum p)).total_requests + _ = _
      unfold mergeM accum
      dsimp
      rw [foldl_update_total]
      simp [emptyMetrics]
      omega
    · rw [i2]
      show (mergeM A (accum p)).err4xx + _ = _
      unfold mergeM accum
      dsimp
      rw [foldl_update_e4]
      simp [emptyMetrics]
      omega
    · rw [i3]
      show (mergeM A (accum p)).err5xx + _ = _
      unfold mergeM accum
      dsimp
      rw [foldl_update_e5]
      simp [emptyMetrics]
      omega
    · rw [i4]
      show (mergeM A (accum p)).admin_ajax_count + _ = _
      unfold mergeM accum
      dsimp
      rw [foldl_update_ajax]
      simp [emptyMetrics]
      omega

theorem fold_mergeM_ip (parts : List (List RecD)) (A : LogMetrics)
    (hA : (cKeys A.ip_counter).Nodup) (k : String) :
    cGet (((parts.map accum).foldl mergeM A).ip_counter) k
      = cGet A.ip_counter k
        + (parts.map (List.countP fun r => r.ip = k)).sum := by
  induction parts generalizing A with
  | nil => simp
  | cons p t ih =>
    rw [List.map_cons, List.foldl_cons, ih _ (nodup_cAdd _ _ hA)]
    show cGet (cAdd A.ip_counter (accum p).ip_counter) k + _ = _
    rw [cGet_cAdd _ _ _ hA (accum_nodup p).1]
    show _ = _ + (p.countP (fun r => r.ip = k)
      + (t.map (List.countP fun r => r.ip = k)).sum)
    have := foldl_update_ip p emptyMetrics k
    unfold accum
    rw [this]
    simp [emptyMetrics]
    omega

theorem fold_mergeM_ua (parts : List (List RecD)) (A : LogMetrics)
    (hA : (cKeys A.ua_counter).Nodup) (k : String) :
    cGet (((parts.map accum).foldl mergeM A).ua_counter) k
      = cGet A.ua_counter k
        + (parts.map (List.countP fun r => r.user_agent = k)).sum := by
  induction parts generalizing A with
  | nil => simp
  | cons p t ih =>
    rw [List.map_cons, List.foldl_cons, ih _ (nodup_cAdd _ _ hA)]
    show cGet (cAdd A.ua_counter (accum p).ua_counter) k + _ = _
    rw [cGet_cAdd _ _ _ hA (accum_nodup p).2.1]
    show _ = _ + (p.countP (fun r => r.user_agent = k)
      + (t.map (List.countP fun r => r.user_agent = k)).sum)
    have := foldl_update_ua p emptyMetrics k
    unfold accum
    rw [this]
    simp [emptyMetrics]
    omega

theorem fold_mergeM_uri (parts : List (List RecD)) (A : LogMetrics)
    (hA : (cKeys A.uri_counter).Nodup) (k : String) :
    cGet (((parts.map accum).foldl mergeM A).uri_counter) k
      = cGet A.uri_counter k
        + (parts.map (List.countP fun r => uriOf r.request = k)).sum := by
  induction parts generalizing A with
  | nil => simp
  | cons p t ih =>
    rw [List.map_cons, List.foldl_cons, ih _ (nodup_cAdd _ _ hA)]
    show cGet (cAdd A.uri_counter (accum p).uri_counter) k + _ = _
    rw [cGet_cAdd _ _ _ hA (accum_nodup p).2.2]
    show _ = _ + (p.countP (fun r => uriOf r.request = k)
      + (t.map (List.countP fun r => uriOf r.request = k)).sum)
    have := foldl_update_uri p emptyMetrics k
    unfold accum
    rw [this]
    simp [emptyMetrics]
    omega

/-- C2: `merge` is commutative and associative up to field-by-field equality
of aggregate values: any grouping of `A.merge(B).merge(C)` equals one fresh
accumulator fed all records, and accumulating any partition of a record
sequence separately and folding the parts with `merge` equals accumulating
the whole sequence. -/
theorem merge_algebra (ra rb rc rs : List RecD) (parts : List (List RecD))
    (hperm : parts.flatten.Perm rs) :
    MEq (mergeM (mergeM (accum ra) (accum rb)) (accum rc))
        (accum (ra ++ rb ++ rc))
    ∧ MEq (mergeM (mergeM (accum rb) (accum rc)) (accum ra))
        (accum (ra ++ rb ++ rc))
    ∧ MEq ((parts.map accum).foldl mergeM emptyMetrics) (accum rs) := by
  have nra := accum_nodup ra
  have nrb := accum_nodup rb
  have nrc := accum_nodup rc
  have m_total : ∀ A B : LogMetrics,
      (mergeM A B).total_requests = A.total_requests + B.total_requests :=
    fun _ _ => rfl
  have m_e4 : ∀ A B : LogMetrics, (mergeM A B).err4xx = A.err4xx + B.err4xx :=
    fun _ _ => rfl
  have m_e5 : ∀ A B : LogMetrics, (mergeM A B).err5xx = A.err5xx + B.err5xx :=
    fun _ _ => rfl
  have m_ajax : ∀ A B : LogMetrics,
      (mergeM A B).admin_ajax_count = A.admin_ajax_count + B.admin_ajax_count :=
    fun _ _ => rfl
  have m_ip : ∀ A B : LogMetrics,
      (mergeM A B).ip_counter = cAdd A.ip_counter B.ip_counter := fun _ _ => rfl
  have m_ua : ∀ A B : LogMetrics,
      (mergeM A B).ua_counter = cAdd A.ua_counter B.ua_counter := fun _ _ => rfl
  have m_uri : ∀ A B : LogMetrics,
      (mergeM A B).uri_counter = cAdd A.uri_counter B.uri_counter :=
    fun _ _ => rfl
  have acc_total : ∀ xs : List RecD, (accum xs).total_requests = xs.length := by
    intro xs
    unfold accum
    rw [foldl_update_total]
    simp [emptyMetrics]
  have acc_e4 : ∀ xs : List RecD,
      (accum xs).err4xx = xs.countP (fun r => is4xx r) := by
    intro xs
    unfold accum
    rw [foldl_update_e4]
    simp [emptyMetrics]
  have acc_e5 : ∀ xs : List RecD,
      (accum xs).err5xx = xs.countP (fun r => is5xx r) := by
    intro xs
    unfold accum
    rw [foldl_update_e5]
    simp [emptyMetrics]
  have acc_ajax : ∀ xs : List RecD,
      (accum xs).admin_ajax_count
        = xs.countP (fun r => strIn ajaxLit (uriOf r.request)) := by
    intro xs
    unfold accum
    rw [foldl_update_ajax]
    simp [emptyMetrics]
  have acc_ip : ∀ (xs : List RecD) (k : String),
      cGet (accum xs).ip_counter k = xs.countP (fun r => r.ip = k) := by
    intro xs k
    unfold accum
    rw [foldl_update_ip]
    simp [emptyMetrics]
  have acc_ua : ∀ (xs : List RecD) (k : String),
      cGet (accum xs).ua_counter k = xs.countP (fun r => r.user_agent = k) := by
    intro xs k
    unfold accum
    rw [foldl_update_ua]
    simp [emptyMetrics]
  have acc_uri : ∀ (xs : List RecD) (k : String),
      cGet (accum xs).uri_counter k
        = xs.countP (fun r => uriOf r.request = k) := by
    intro xs k
    unfold accum
    rw [foldl_update_uri]
    simp [emptyMetrics]
  refine ⟨?_, ?_, ?_⟩
  · refine ⟨?_, ?_, ?_, ?_, ?_, ?_, ?_⟩
    · rw [m_total, m_total, acc_total, acc_total, acc_total, acc_total]
      simp
      omega
    · rw [m_e4, m_e4, acc_e4, acc_e4, acc_e4, acc_e4, List.countP_append,
        List.countP_append]
    · rw [m_e5, m_e5, acc_e5, acc_e5, acc_e5, acc_e5, List.countP_append,
        List.countP_append]
    · rw [m_ajax, m_ajax, acc_ajax, acc_ajax, acc_ajax, acc_ajax,
        List.countP_append, List.countP_append]
    · intro k
      rw [m_ip, m_ip, cGet_cAdd _ _ _ (nodup_cAdd _ _ nra.1) nrc.1,
        cGet_cAdd _ _ _ nra.1 nrb.1, acc_ip, acc_ip, acc_ip, acc_ip,
        List.countP_append, List.countP_append]
    · intro k
      rw [m_ua, m_ua, cGet_cAdd _ _ _ (nodup_cAdd _ _ nra.2.1) nrc.2.1,
        cGet_cAdd _ _ _ nra.2.1 nrb.2.1, acc_ua, acc_ua, acc_ua, acc_ua,
        List.countP_append, List.countP_append]
    · intro k
      rw [m_uri, m_uri, cGet_cAdd _ _ _ (nodup_cAdd _ _ nra.2.2) nrc.2.2,
        cGet_cAdd _ _ _ nra.2.2 nrb.2.2, acc_uri, acc_uri, acc_uri, acc_uri,
        List.countP_append, List.countP_append]
  · refine ⟨?_, ?_, ?_, ?_, ?_, ?_, ?_⟩
    · rw [m_total, m_total, acc_total, acc_total, acc_total, acc_total]
      simp
      omega
    · rw [m_e4, m_e4, acc_e4, acc_e4, acc_e4, acc_e4, List.countP_append,
        List.countP_append]
      omega
    · rw [m_e5, m_e5, acc_e5, acc_e5, acc_e5, acc_e5, List.countP_append,
        List.countP_append]
      omega
    · rw [m_ajax, m_ajax, acc_ajax, acc_ajax, acc_ajax, acc_ajax,
        List.countP_append, List.countP_append]
      omega
    · intro k
      rw [m_ip, m_ip, cGet_cAdd _ _ _ (nodup_cAdd _ _ nrb.1) nra.1,
        cGet_cAdd _ _ _ nrb.1 nrc.1, acc_ip, acc_ip, acc_ip, acc_ip,
        List.countP_append, List.countP_append]
      omega
    · intro k
      rw [m_ua, m_ua, cGet_cAdd _ _ _ (nodup_cAdd _ _ nrb.2.1) nra.2.1,
        cGet_cAdd _ _ _ nrb.2.1 nrc.2.1, acc_ua, acc_ua, acc_ua, acc_ua,
        List.countP_append, List.countP_append]
      omega
    · intro k
      rw [m_uri, m_uri, cGet_cAdd _ _ _ (nodup_cAdd _ _ nrb.2.2) nra.2.2,
        cGet_cAdd _ _ _ nrb.2.2 nrc.2.2, acc_uri, acc_uri, acc_uri, acc_uri,
        List.countP_append, List.countP_append]
      omega
  · have hempty_nodup : (cKeys emptyMetrics.ip_counter).Nodup
        ∧ (cKeys emptyMetrics.ua_counter).Nodup
        ∧ (cKeys emptyMetrics.uri_counter).Nodup := by
      simp [emptyMetrics]
    refine ⟨?_, ?_, ?_, ?_, ?_, ?_, ?_⟩
    · rw [(fold_mergeM_num parts emptyMetrics).1, acc_total]
      have h1 := hperm.length_eq
      have h2 : parts.flatten.length = (parts.map List.length).sum := by
        simp
      simp [emptyMetrics]
      omega
    · rw [(fold_mergeM_num parts emptyMetrics).2.1, acc_e4,
        ← hperm.countP_eq, countP_flatten_sum]
      simp [emptyMetrics]
    · rw [(fold_mergeM_num parts emptyMetrics).2.2.1, acc_e5,
        ← hperm.countP_eq, countP_flatten_sum]
      simp [emptyMetrics]
    · rw [(fold_mergeM_num parts emptyMetrics).2.2.2, acc_ajax,
        ← hperm.countP_eq, countP_flatten_sum]
      simp [emptyMetrics]
    · intro k
      rw [fold_mergeM_ip parts emptyMetrics hempty_nodup.1, acc_ip,
        ← hperm.countP_eq, countP_flatten_sum]
      simp [emptyMetrics]
    · intro k
      rw [fold_mergeM_ua parts emptyMetrics hempty_nodup.2.1, acc_ua,
        ← hperm.countP_eq, countP_flatten_sum]
      simp [emptyMetrics]
    · intro k
      rw [fold_mergeM_uri parts emptyMetrics hempty_nodup.2.2, acc_uri,
        ← hperm.countP_eq, countP_flatten_sum]
      simp [emptyMetrics]

/-- C2 witness: a concrete split of three records into two parts merges to
the same aggregate values as one accumulator, and a concrete triple merge
equals the flat accumulator. -/
theorem merge_algebra_witness :
    MEq (mergeM (mergeM
          (accum [⟨"1.1.1.1", "d", "GET /a HTTP/1.1", "200", "1", "-", "UA"⟩])
          (accum [⟨"2.2.2.2", "d", "GET /b HTTP/1.1", "404", "1", "-", "UB"⟩]))
        (accum [⟨"1.1.1.1", "d", "GET /a HTTP/1.1", "503", "1", "-", "UA"⟩]))
      (accum
        [⟨"1.1.1.1", "d", "GET /a HTTP/1.1", "200", "1", "-", "UA"⟩,
         ⟨"2.2.2.2", "d", "GET /b HTTP/1.1", "404", "1", "-", "UB"⟩,
         ⟨"1.1.1.1", "d", "GET /a HTTP/1.1", "503", "1", "-", "UA"⟩])
    ∧ MEq (([[⟨"1.1.1.1", "d", "GET /a HTTP/1.1", "200", "1", "-", "UA"⟩,
              ⟨"2.2.2.2", "d", "GET /b HTTP/1.1", "404", "1", "-", "UB"⟩],
             [⟨"1.1.1.1", "d", "GET /a HTTP/1.1", "503", "1", "-", "UA"⟩]].map
             accum).foldl mergeM emptyMetrics)
        (accum
          [⟨"1.1.1.1", "d", "GET /a HTTP/1.1", "200", "1", "-", "UA"⟩,
           ⟨"2.2.2.2", "d", "GET /b HTTP/1.1", "404", "1", "-", "UB"⟩,
           ⟨"1.1.1.1", "d", "GET /a HTTP/1.1", "503", "1", "-", "UA"⟩]) := by
  constructor
  · exact (merge_algebra
      [⟨"1.1.1.1", "d", "GET /a HTTP/1.1", "200", "1", "-", "UA"⟩]
      [⟨"2.2.2.2", "d", "GET /b HTTP/1.1", "404", "1", "-", "UB"⟩]
      [⟨"1.1.1.1", "d", "GET /a HTTP/1.1", "503", "1", "-", "UA"⟩]
      [] [] (by decide)).1
  · exact (merge_algebra [] [] []
      [⟨"1.1.1.1", "d", "GET /a HTTP/1.1", "200", "1", "-", "UA"⟩,
       ⟨"2.2.2.2", "d", "GET /b HTTP/1.1", "404", "1", "-", "UB"⟩,
       ⟨"1.1.1.1", "d", "GET /a HTTP/1.1", "503", "1", "-", "UA"⟩]
      [[⟨"1.1.1.1", "d", "GET /a HTTP/1.1", "200", "1", "-", "UA"⟩,
        ⟨"2.2.2.2", "d", "GET /b HTTP/1.1", "404", "1", "-", "UB"⟩],
       [⟨"1.1.1.1", "d", "GET /a HTTP/1.1", "503", "1", "-", "UA"⟩]]
      (by decide)).2.2

/-! ## The URI-extraction fallback (C4) -/

/-- After skipping leading whitespace and then the first whitespace-free
run, only whitespace remains: the request line has no second token. -/
def noSecondTok (l : List Char) : Bool :=
  ((l.dropWhile isPyWS).dropWhile fun c => !isPyWS c).all isPyWS

theorem splitAux_ne_nil (t cur : List Char) (h : cur ≠ []) :
    splitAux t cur ≠ [] := by
  induction t generalizing cur with
  | nil =>
    have hie : cur.isEmpty = false := by
      cases cur with
      | nil => exact absurd rfl h
      | cons x xs => rfl
    simp [splitAux, hie]
  | cons c t ih =>
    unfold splitAux
    have hie : cur.isEmpty = false := by
      cases cur with
      | nil => exact absurd rfl h
      | cons x xs => rfl
    by_cases hc : isPyWS c
    · rw [if_pos hc, hie]
      simp
    · rw [if_neg hc]
      exact ih (c :: cur) (by simp)

theorem splitAux_nil_iff (l : List Char) :
    splitAux l [] = [] ↔ l.all isPyWS = true := by
  induction l with
  | nil => simp [splitAux]
  | cons c t ih =>
    unfold splitAux
    by_cases hc : isPyWS c
    · rw [if_pos hc]
      simp [List.all_cons, hc, ih]
    · rw [if_neg hc]
      constructor
      · intro h
        exact absurd h (splitAux_ne_nil t [c] (by simp))
      · intro h
        simp only [List.all_cons, Bool.and_eq_true] at h
        exact absurd h.1 hc

theorem splitAux_len_le_one (t cur : List Char) (h : cur ≠ []) :
    (splitAux t cur).length ≤ 1
      ↔ (t.dropWhile fun c => !isPyWS c).all isPyWS = true := by
  induction t generalizing cur with
  | nil =>
    have hie : cur.isEmpty = false := by
      cases cur with
      | nil => exact absurd rfl h
      | cons x xs => rfl
    simp [splitAux, hie]
  | cons c t ih =>
    unfold splitAux
    have hie : cur.isEmpty = false := by
      cases cur with
      | nil => exact absurd rfl h
      | cons x xs => rfl
    by_cases hc : isPyWS c
    · rw [if_pos hc, hie]
      simp only [Bool.false_eq_true, if_false, List.length_cons]
      rw [List.dropWhile_cons_of_neg (by simp [hc])]
      rw [List.all_cons, hc]
      simp only [Bool.true_and]
      constructor
      · intro hlen
        have : splitAux t [] = [] := by
          cases hs : splitAux t [] with
          | nil => rfl
          | cons x xs =>
            rw [hs] at hlen
            simp at hlen
        exact (splitAux_nil_iff t).mp this
      · intro hall
        rw [(splitAux_nil_iff t).mpr hall]
        simp
    · rw [if_neg hc]
      rw [ih (c :: cur) (by simp)]
      rw [List.dropWhile_cons_of_pos (by simp [hc])]

theorem pySplit_len_le_one_iff (l : List Char) :
    (splitAux l []).length ≤ 1 ↔ noSecondTok l = true := by
  unfold noSecondTok
  induction l with
  | nil => simp [splitAux]
  | cons c t ih =>
    unfold splitAux
    by_cases hc : isPyWS c
    · rw [if_pos hc]
      simp only [List.isEmpty_nil, if_true]
      rw [List.dropWhile_cons_of_pos hc]
      exact ih
    · rw [if_neg hc]
      rw [splitAux_len_le_one t [c] (by simp)]
      rw [List.dropWhile_cons_of_neg (by simpa using hc)]
      rw [List.dropWhile_cons_of_pos (by simp [hc])]

/-- C4 counterexample: for the raw request line `"GET "` the code counts the
entire raw request line (the fallback fires) although the line does contain
whitespace — refuting "the fallback occurs exactly when the raw request
line contains no whitespace". -/
theorem uriOf_fallback_whitespace_cex :
    uriOf "GET " = "GET "
    ∧ "GET ".data.any isPyWS = true
    ∧ (applyUpdate emptyMetrics
        ⟨"1.1.1.1", "d", "GET ", "200", "1", "-", "UA"⟩).uri_counter
      = [("GET ", 1)] := by
  refine ⟨by decide, by decide, ?_⟩
  rw [applyUpdate_uri]
  decide

/-- C4 (amended): `update` counts as the request target the second
whitespace-separated token of the raw request line when the split yields at
least two tokens, and falls back to the entire raw request line exactly when
the split yields at most one token — equivalently, exactly when after any
leading whitespace the first whitespace-free run of the request line is
followed by whitespace only. -/
theorem uriOf_characterization (m : LogMetrics) (r : RecD) :
    (applyUpdate m r).uri_counter = cInc m.uri_counter (uriOf r.request)
    ∧ (∀ a u rest, pySplit r.request = a :: u :: rest → uriOf r.request = u)
    ∧ ((pySplit r.request).length ≤ 1 → uriOf r.request = r.request)
    ∧ ((pySplit r.request).length ≤ 1 ↔ noSecondTok r.request.data = true) := by
  refine ⟨applyUpdate_uri m r, ?_, ?_, ?_⟩
  · intro a u rest h
    unfold uriOf
    rw [h]
  · intro h
    unfold uriOf
    cases hs : pySplit r.request with
    | nil => rfl
    | cons a t =>
      cases t with
      | nil => rfl
      | cons u rest =>
        rw [hs] at h
        simp at h
  · unfold pySplit
    rw [List.length_map]
    exact pySplit_len_le_one_iff r.request.data

/-- C4 witness: a two-token request yields its second token; `"GET "`
splits to one token and falls back even though it contains whitespace. -/
theorem uriOf_characterization_witness :
    uriOf "GET /a HTTP/1.1" = "/a" ∧ uriOf "GET " = "GET " :=
  ⟨(uriOf_characterization emptyMetrics
      ⟨"1.1.1.1", "d", "GET /a HTTP/1.1", "200", "1", "-", "UA"⟩).2.1
      "GET" "/a" ["HTTP/1.1"] (by decide),
   (uriOf_characterization emptyMetrics
      ⟨"1.1.1.1", "d", "GET ", "200", "1", "-", "UA"⟩).2.2.1 (by decide)⟩

/-- C7 witness: a concrete line with trailing text parses, and
re-serializing the captured fields reconstructs exactly the consumed
prefix. -/
theorem parseCLFc_roundtrip_witness :
    serializeCLF
        ⟨"127.0.0.1", "09/Dec/2025:11:00:00 -0600", "GET / HTTP/1.1", "200",
         "5", "-", "UA"⟩
      ++ " tail".data
      = ("127.0.0.1 - - [09/Dec/2025:11:00:00 -0600] \"GET / HTTP/1.1\" 200 5 \"-\" \"UA\" tail").data :=
  parseCLFc_roundtrip _ _ _ (by decide)

/-! ## The heap picture of `merge` (C8)

`LogMetrics.merge` runs seven statements, each of the form
`self.field = self.field ⊕ other.field`: on a heap of aggregate objects it
writes only the receiver's cell.  The heap is modelled as a function from
(two) object references to aggregate values; each statement is a
`Function.update` of the receiver's cell computed from the current heap. -/

def mergeHeap (h : Bool → LogMetrics) (s o : Bool) : Bool → LogMetrics :=
  let h1 := Function.update h s
    { h s with total_requests := (h s).total_requests + (h o).total_requests }
  let h2 := Function.update h1 s
    { h1 s with ip_counter := cAdd (h1 s).ip_counter (h1 o).ip_counter }
  let h3 := Function.update h2 s
    { h2 s with ua_counter := cAdd (h2 s).ua_counter (h2 o).ua_counter }
  let h4 := Function.update h3 s
    { h3 s with uri_counter := cAdd (h3 s).uri_counter (h3 o).uri_counter }
  let h5 := Function.update h4 s
    { h4 s with err4xx := (h4 s).err4xx + (h4 o).err4xx }
  let h6 := Function.update h5 s
    { h5 s with err5xx := (h5 s).err5xx + (h5 o).err5xx }
  let h7 := Function.update h6 s
    { h6 s with admin_ajax_count :=
        (h6 s).admin_ajax_count + (h6 o).admin_ajax_count }
  h7

/-- C8: `merge` on two distinct aggregate objects mutates only the
receiver: the argument's cell is unchanged, field for field, while the
receiver's cell becomes the merged value. -/
theorem merge_frame (h : Bool → LogMetrics) (s o : Bool) (hne : s ≠ o) :
    mergeHeap h s o o = h o ∧ mergeHeap h s o s = mergeM (h s) (h o) := by
  have hosym : o ≠ s := fun he => hne he.symm
  constructor
  · unfold mergeHeap
    simp [Function.update_noteq hosym]
  · unfold mergeHeap
    simp [Function.update_same, Function.update_noteq hosym, mergeM]

/-- C8 witness: with a one-record receiver and an empty argument in a
two-cell heap, merging leaves the argument's cell exactly as it was. -/
theorem merge_frame_witness :
    mergeHeap
        (fun b => cond b
          (accum [⟨"1.1.1.1", "d", "GET /a HTTP/1.1", "200", "1", "-", "UA"⟩])
          emptyMetrics)
        true false false
      = emptyMetrics :=
  (merge_frame _ true false (by decide)).1

/-- C9: when the record's status is not a valid decimal numeral,
`int(data['status'])` raises, and the aggregate is left partially mutated
at the raise point: total, the three frequency tables, and (when the target
matches) the admin-ajax counter are already incremented, while the error
counters are untouched — `update` is not atomic on error. -/
theorem update_not_atomic (m : LogMetrics) (r : RecD)
    (h : pyInt r.status = none) :
    update m r = Except.error { m with
      total_requests := m.total_requests + 1,
      ip_counter := cInc m.ip_counter r.ip,
      ua_counter := cInc m.ua_counter r.user_agent,
      uri_counter := cInc m.uri_counter (uriOf r.request),
      admin_ajax_count := m.admin_ajax_count
        + (if strIn ajaxLit (uriOf r.request) then 1 else 0) } := by
  unfold update
  rw [h]
  dsimp only
  by_cases hadmin : strIn ajaxLit (uriOf r.request) = true <;> simp [hadmin]

/-- C9 witness: a status of `"20x"` raises with the partial state applied. -/
theorem update_not_atomic_witness :
    update emptyMetrics ⟨"1.1.1.1", "d", "GET /a HTTP/1.1", "20x", "1", "-", "UA"⟩
      = Except.error { emptyMetrics with
          total_requests := emptyMetrics.total_requests + 1,
          ip_counter := cInc emptyMetrics.ip_counter "1.1.1.1",
          ua_counter := cInc emptyMetrics.ua_counter "UA",
          uri_counter := cInc emptyMetrics.uri_counter (uriOf "GET /a HTTP/1.1"),
          admin_ajax_count := emptyMetrics.admin_ajax_count
            + (if strIn ajaxLit (uriOf "GET /a HTTP/1.1") then 1 else 0) } :=
  update_not_atomic emptyMetrics _ (by decide)

/-- C10: the grammar requires at least one character in the request group —
a line whose quoted request is empty does not match — while empty referrer
and user-agent groups are accepted and captured as empty strings. -/
theorem empty_request_vs_empty_fields :
    (∀ ip date rest : String,
      ip.data ≠ [] → (∀ c ∈ ip.data, isIpChar c = true) →
      date.data ≠ [] → (∀ c ∈ date.data, (c != ']') = true) →
      parse_log_line (ip ++ " - - [" ++ date ++ "] \"\"" ++ rest) = none)
    ∧ (∀ r : RecD, r.referrer = "" →
        r.ip.data ≠ [] → (∀ c ∈ r.ip.data, isIpChar c = true) →
        r.date.data ≠ [] → (∀ c ∈ r.date.data, (c != ']') = true) →
        r.request.data ≠ [] → (∀ c ∈ r.request.data, (c != '"') = true) →
        r.status.data ≠ [] → (∀ c ∈ r.status.data, c.isDigit = true) →
        ((r.size.data ≠ [] ∧ ∀ c ∈ r.size.data, c.isDigit = true)
          ∨ r.size.data = ['-']) →
        (∀ c ∈ r.user_agent.data, (c != '"') = true) →
        parse_log_line ⟨serializeCLF r⟩ = some r)
    ∧ (∀ r : RecD, r.user_agent = "" →
        r.ip.data ≠ [] → (∀ c ∈ r.ip.data, isIpChar c = true) →
        r.date.data ≠ [] → (∀ c ∈ r.date.data, (c != ']') = true) →
        r.request.data ≠ [] → (∀ c ∈ r.request.data, (c != '"') = true) →
        r.status.data ≠ [] → (∀ c ∈ r.status.data, c.isDigit = true) →
        ((r.size.data ≠ [] ∧ ∀ c ∈ r.size.data, c.isDigit = true)
          ∨ r.size.data = ['-']) →
        (∀ c ∈ r.referrer.data, (c != '"') = true) →
        parse_log_line ⟨serializeCLF r⟩ = some r) := by
  refine ⟨?_, ?_, ?_⟩
  · intro ip date rest hne hip hdne hdate
    unfold parse_log_line
    have h1 : (" - - [" : String).data = lit1 := rfl
    have h2 : ("] \"\"" : String).data = lit2 ++ ['"'] := rfl
    have hdata : (ip ++ " - - [" ++ date ++ "] \"\"" ++ rest).data
        = ip.data ++ (lit1 ++ (date.data ++ (lit2 ++ '"' :: rest.data))) := by
      simp [String.data_append, h1, h2, List.append_assoc]
      rfl
    rw [hdata, parseCLFc_empty_request ip.data date.data rest.data
      ⟨hne, hip⟩ ⟨hdne, hdate⟩]
    rfl
  · intro r hres h1 h2 h3 h4 h5 h6 h7 h8 h9 h10
    unfold parse_log_line
    rw [data_mk, parseCLFc_serialize r ⟨h1, h2⟩ ⟨h3, h4⟩ ⟨h5, h6⟩ ⟨h7, h8⟩ h9
      (by rw [hres]; intro c hc; simp at hc) h10]
    rfl
  · intro r hua h1 h2 h3 h4 h5 h6 h7 h8 h9 h10
    unfold parse_log_line
    rw [data_mk, parseCLFc_serialize r ⟨h1, h2⟩ ⟨h3, h4⟩ ⟨h5, h6⟩ ⟨h7, h8⟩ h9 h10
      (by rw [hua]; intro c hc; simp at hc)]
    rfl

/-- C10 witness: a concrete empty-request line is rejected; a concrete line
with empty referrer and a concrete line with empty user agent are both
accepted with the empty field captured. -/
theorem empty_request_vs_empty_fields_witness :
    parse_log_line "1.2.3.4 - - [09/Dec/2025] \"\" 200 5 \"-\" \"UA\"" = none
    ∧ parse_log_line
        ⟨serializeCLF ⟨"1.2.3.4", "d", "GET / HTTP/1.1", "200", "5", "", "UA"⟩⟩
      = some ⟨"1.2.3.4", "d", "GET / HTTP/1.1", "200", "5", "", "UA"⟩
    ∧ parse_log_line
        ⟨serializeCLF ⟨"1.2.3.4", "d", "GET / HTTP/1.1", "200", "5", "-", ""⟩⟩
      = some ⟨"1.2.3.4", "d", "GET / HTTP/1.1", "200", "5", "-", ""⟩ := by
  refine ⟨?_, ?_, ?_⟩
  · have := empty_request_vs_empty_fields.1 "1.2.3.4" "09/Dec/2025"
      " 200 5 \"-\" \"UA\"" (by decide) (by decide) (by decide) (by decide)
    exact this
  · exact empty_request_vs_empty_fields.2.1
      ⟨"1.2.3.4", "d", "GET / HTTP/1.1", "200", "5", "", "UA"⟩ rfl
      (by decide) (by decide) (by decide) (by decide) (by decide) (by decide)
      (by decide) (by decide) (by decide) (by decide)
  · exact empty_request_vs_empty_fields.2.2
      ⟨"1.2.3.4", "d", "GET / HTTP/1.1", "200", "5", "-", ""⟩ rfl
      (by decide) (by decide) (by decide) (by decide) (by decide) (by decide)
      (by decide) (by decide) (by decide) (by decide)

end LogTriage
